import Mathlib

/-!
Shallow embedding of the product-card generator's extraction and rendering
core (bot/utils/helpers.py, bot/ai/text_analyzer.py, bot/ai/vision_analyzer.py,
bot/handlers/description.py, bot/handlers/photo.py,
bot/generator/templates/minimal.py, bot/generator/templates/dark.py).

Python strings are modelled as lists of characters (`Str`).  Regular
expressions from the source are embedded as dedicated matcher functions that
mirror the concrete pattern they implement; each matcher carries the pattern
text in its doc comment.  Machine text predicates (whitespace, word
characters, lower-casing) cover the ASCII and Cyrillic ranges actually
exercised by the program's Russian/ASCII inputs.
-/

set_option maxRecDepth 16000

/-- Python strings, modelled as lists of characters. -/
abbrev Str := List Char

/-- Python whitespace (`str.split`, `str.strip`, regex `\s`):
space, tab, newline, carriage return, vertical tab, form feed. -/
def isPyWs (c : Char) : Bool :=
  c == ' ' || c == '\t' || c == '\n' || c == '\r' || c == '\x0b' || c == '\x0c'

/-- JSON whitespace accepted by `json.loads` around tokens: space, tab, LF, CR. -/
def isJsonWs (c : Char) : Bool :=
  c == ' ' || c == '\t' || c == '\n' || c == '\r'

/-- ASCII digit, as matched by regex `\d` on the program's inputs. -/
def isDigitCh (c : Char) : Bool :=
  '0' ≤ c && c ≤ '9'

/-- Lower-casing for ASCII and Cyrillic letters (Python `str.lower` on the
character ranges the program handles). -/
def toLowerCh (c : Char) : Char :=
  if 'A' ≤ c && c ≤ 'Z' then Char.ofNat (c.toNat + 32)
  else if 'А' ≤ c && c ≤ 'Я' then Char.ofNat (c.toNat + 32)
  else if c = 'Ё' then 'ё'
  else c

/-- Upper-casing for ASCII and Cyrillic letters (Python `str.upper` /
`str.capitalize` first character). -/
def toUpperCh (c : Char) : Char :=
  if 'a' ≤ c && c ≤ 'z' then Char.ofNat (c.toNat - 32)
  else if 'а' ≤ c && c ≤ 'я' then Char.ofNat (c.toNat - 32)
  else if c = 'ё' then 'Ё'
  else c

/-- Regex word character `\w` (Unicode mode) restricted to the ranges the
program sees: ASCII alphanumerics, underscore, and Cyrillic letters. -/
def isWordCh (c : Char) : Bool :=
  isDigitCh c || ('a' ≤ c && c ≤ 'z') || ('A' ≤ c && c ≤ 'Z') || c == '_' ||
    ('А' ≤ c && c ≤ 'я') || c == 'ё' || c == 'Ё'

/-- Python `str.lower`. -/
def pyLower (s : Str) : Str :=
  s.map toLowerCh

/-- Python `str.strip()` (no argument: strips whitespace from both ends). -/
def pyStrip (s : Str) : Str :=
  ((s.dropWhile isPyWs).reverse.dropWhile isPyWs).reverse

/-- Strip the given character from both ends (Python `str.strip(",")`). -/
def pyStripChar (ch : Char) (s : Str) : Str :=
  ((s.dropWhile (· == ch)).reverse.dropWhile (· == ch)).reverse

/-- Worker for `pySplitWs`: accumulates the current word reversed. -/
def splitWsGo : Str → Str → List Str
  | [], cur => if cur.isEmpty then [] else [cur.reverse]
  | c :: cs, cur =>
    if isPyWs c then
      if cur.isEmpty then splitWsGo cs [] else cur.reverse :: splitWsGo cs []
    else splitWsGo cs (c :: cur)

/-- Python `str.split()` with no argument: split on whitespace runs,
dropping empty pieces. -/
def pySplitWs (s : Str) : List Str :=
  splitWsGo s []

/-- Worker for `pySplitChar`. -/
def splitChGo (ch : Char) : Str → Str → List Str
  | [], cur => [cur.reverse]
  | c :: cs, cur =>
    if c == ch then cur.reverse :: splitChGo ch cs []
    else splitChGo ch cs (c :: cur)

/-- Python `str.split(ch)`: split on every occurrence of `ch`, keeping
empty pieces (the result is always non-empty). -/
def pySplitChar (ch : Char) (s : Str) : List Str :=
  splitChGo ch s []

/-- Worker for `pySplitCharOnce`. -/
def splitOnceGo (ch : Char) : Str → Str → List Str
  | [], cur => [cur.reverse]
  | c :: cs, cur =>
    if c == ch then [cur.reverse, cs]
    else splitOnceGo ch cs (c :: cur)

/-- Python `str.split(ch, 1)`: split at the first occurrence only. -/
def pySplitCharOnce (ch : Char) (s : Str) : List Str :=
  splitOnceGo ch s []

/-- Join pieces with the given separator string (Python `sep.join`). -/
def joinWith (sep : Str) : List Str → Str
  | [] => []
  | [l] => l
  | l :: ls => l ++ sep ++ joinWith sep ls

/-- Python `" ".join`, as used by `_wrap_text`. -/
def joinSpace (ls : List Str) : Str :=
  joinWith [' '] ls

/-- Python `str.capitalize()`: first character upper-cased, rest lower-cased. -/
def pyCapitalize : Str → Str
  | [] => []
  | c :: cs => toUpperCh c :: pyLower cs

/-- Does `small` occur as a contiguous substring of `s` (Python `in`)? -/
def containsSub (s small : Str) : Bool :=
  (List.range (s.length + 1)).any (fun i => small.isPrefixOf (s.drop i))

/-- Loop of `_wrap_text` (MinimalTemplate / DarkTemplate, identical bodies):
`current_line.append(word); if len(" ".join(current_line)) > max_width:
current_line.pop(); lines.append(" ".join(current_line)); current_line=[word]`. -/
def wrapLoop (w : Nat) : List Str → List Str → List Str → List Str
  | lines, cur, [] => if cur.isEmpty then lines else lines ++ [joinSpace cur]
  | lines, cur, word :: rest =>
    if w < (joinSpace (cur ++ [word])).length then
      wrapLoop w (lines ++ [joinSpace cur]) [word] rest
    else
      wrapLoop w lines (cur ++ [word]) rest

/-- `MinimalTemplate._wrap_text` / `DarkTemplate._wrap_text` (identical):
split the text into words and greedily pack them into lines of at most
`maxWidth` characters. -/
def wrapText (text : Str) (maxWidth : Nat) : List Str :=
  wrapLoop maxWidth [] [] (pySplitWs text)

/-- A produced line is acceptable when it fits the budget or is a single
over-budget word of the original text. -/
def LineOk (words : List Str) (w : Nat) (l : Str) : Prop :=
  l.length ≤ w ∨ (l ∈ words ∧ w < l.length)

theorem joinSpace_single (u : Str) : joinSpace [u] = u := rfl

theorem joinSpace_nil : joinSpace [] = [] := rfl

theorem wrapLoop_lines_ok (words : List Str) (w : Nat) :
    ∀ (rest lines cur : List Str),
      (∀ l ∈ lines, LineOk words w l) →
      ((joinSpace cur).length ≤ w ∨ ∃ u, cur = [u] ∧ u ∈ words ∧ w < u.length) →
      (∀ x ∈ rest, x ∈ words) →
      ∀ l ∈ wrapLoop w lines cur rest, LineOk words w l := by
  intro rest
  induction rest with
  | nil =>
    intro lines cur hlines hcur _
    intro l hl
    unfold wrapLoop at hl
    by_cases hc : cur.isEmpty
    · simp [hc] at hl
      exact hlines l hl
    · simp [hc] at hl
      rcases hl with hl | hl
      · exact hlines l hl
      · subst hl
        rcases hcur with h | ⟨u, rfl, hu, hlen⟩
        · exact Or.inl h
        · exact Or.inr ⟨by simpa [joinSpace_single] using hu, by simpa [joinSpace_single] using hlen⟩
  | cons word rest ih =>
    intro lines cur hlines hcur hrest
    intro l hl
    unfold wrapLoop at hl
    by_cases hover : w < (joinSpace (cur ++ [word])).length
    · simp only [hover, if_true] at hl
      refine ih (lines ++ [joinSpace cur]) [word] ?_ ?_ ?_ l hl
      · intro l' hl'
        rcases List.mem_append.mp hl' with h | h
        · exact hlines l' h
        · have : l' = joinSpace cur := by simpa using h
          subst this
          rcases hcur with h' | ⟨u, rfl, hu, hlen⟩
          · exact Or.inl h'
          · exact Or.inr ⟨by simpa [joinSpace_single] using hu,
              by simpa [joinSpace_single] using hlen⟩
      · by_cases hw : word.length ≤ w
        · exact Or.inl (by simpa [joinSpace_single] using hw)
        · exact Or.inr ⟨word, rfl, hrest word (List.mem_cons_self word rest),
            by omega⟩
      · intro x hx
        exact hrest x (List.mem_cons_of_mem word hx)
    · simp only [hover, if_false] at hl
      refine ih lines (cur ++ [word]) hlines (Or.inl (by omega)) ?_ l hl
      intro x hx
      exact hrest x (List.mem_cons_of_mem word hx)

theorem wrapLoop_head (w : Nat) :
    ∀ (rest lines cur : List Str), lines ≠ [] →
      (wrapLoop w lines cur rest).head? = lines.head? := by
  intro rest
  induction rest with
  | nil =>
    intro lines cur hne
    unfold wrapLoop
    by_cases hc : cur.isEmpty
    · simp [hc]
    · cases lines with
      | nil => exact absurd rfl hne
      | cons a as => simp [hc]
  | cons word rest ih =>
    intro lines cur hne
    unfold wrapLoop
    by_cases hover : w < (joinSpace (cur ++ [word])).length
    · simp only [hover, if_true]
      rw [ih (lines ++ [joinSpace cur]) [word] (by simp)]
      cases lines with
      | nil => exact absurd rfl hne
      | cons a as => simp
    · simp only [hover, if_false]
      exact ih lines (cur ++ [word]) hne

/-- C10: every line produced by the templates' `_wrap_text` either fits the
character budget or is a single over-budget word of the text (over-budget
words are emitted whole, never split); and when the very first word of the
text exceeds the budget, the returned list starts with an empty line. -/
theorem c10_wrap_text_budget (text : Str) (w : Nat) :
    (∀ l ∈ wrapText text w,
        l.length ≤ w ∨ (l ∈ pySplitWs text ∧ w < l.length)) ∧
    (∀ u us, pySplitWs text = u :: us → w < u.length →
        (wrapText text w).head? = some []) := by
  constructor
  · intro l hl
    exact wrapLoop_lines_ok (pySplitWs text) w (pySplitWs text) [] []
      (by intro l' h; cases h)
      (Or.inl (by simp [joinSpace_nil]))
      (fun x hx => hx) l hl
  · intro u us hsplit hlen
    unfold wrapText
    rw [hsplit]
    unfold wrapLoop
    have hover : w < (joinSpace ([] ++ [u])).length := by
      simpa [joinSpace_single] using hlen
    simp only [hover, if_true]
    rw [wrapLoop_head w us ([] ++ [joinSpace []]) [u] (by simp)]
    simp [joinSpace_nil]

/-- Witness for C10 at a concrete input: the first word of `"aaaaa bb"` has
five characters, above a budget of three, so the wrapped list starts with an
empty line. -/
theorem c10_wrap_text_budget_witness :
    (wrapText ((r"aaaaa bb").toList) 3).head? = some [] :=
  (c10_wrap_text_budget ((r"aaaaa bb").toList) 3).2
    ((r"aaaaa").toList) [(r"bb").toList] (by decide) (by decide)

/-- JSON values as produced by `json.loads`.  Numbers keep their literal
spelling (the program never computes with parsed numbers); objects keep
their fields in parse order. -/
inductive Json where
  | null : Json
  | bool (b : Bool) : Json
  | num (lit : Str) : Json
  | str (s : Str) : Json
  | arr (elems : List Json) : Json
  | obj (fields : List (Str × Json)) : Json

/-- The `ProductInfo` dataclass of `bot/ai/text_analyzer.py`: every field
optional, `None` by default. -/
structure ProductInfo where
  name : Option Str := none
  price : Option Str := none
  description : Option Str := none
  category : Option Str := none
  color : Option Str := none
  size : Option Str := none
  otherFeatures : Option Json := none

/-- Python truthiness of an optional string: `None` and `""` are falsy. -/
def truthyS : Option Str → Bool
  | none => false
  | some s => !s.isEmpty

/-- The literal `"Не предоставлено"` placeholder tested by
`add_text_to_photo_handler`. -/
def placeholderDesc : Str := (r"Не предоставлено").toList

/-- The caption merge of `process_product_photo` (photo.py lines 219-230):
caption fields override when truthy; both descriptions truthy concatenates
photo description, `". "`, caption description.  The source updates the four
fields with separate `if` statements on distinct attributes, which this
record expression mirrors field by field; `color`, `size` and
`other_features` are not merged there. -/
def mergeCaptionInfo (productInfo captionInfo : ProductInfo) : ProductInfo :=
  { productInfo with
    name := if truthyS captionInfo.name then captionInfo.name else productInfo.name
    price := if truthyS captionInfo.price then captionInfo.price else productInfo.price
    description :=
      if truthyS captionInfo.description then
        if truthyS productInfo.description then
          some ((productInfo.description.getD []) ++ '.' :: ' ' ::
            (captionInfo.description.getD []))
        else captionInfo.description
      else productInfo.description
    category :=
      if truthyS captionInfo.category then captionInfo.category
      else productInfo.category }

/-- The six-field dictionary built by photo.py's
`extract_product_info_from_text`. -/
structure Extracted where
  name : Option Str := none
  price : Option Str := none
  description : Option Str := none
  category : Option Str := none
  color : Option Str := none
  size : Option Str := none

/-- The user-correction merge of `add_text_to_photo_handler` (photo.py lines
358-373): each truthy extracted field overrides the stored dictionary; the
description is concatenated with `". "` when the stored one is truthy and is
not the literal placeholder `"Не предоставлено"`.  The source applies six
`if` statements to distinct keys, mirrored here field by field. -/
def applyExtracted (productDict : ProductInfo) (extracted : Extracted) : ProductInfo :=
  { productDict with
    name := if truthyS extracted.name then extracted.name else productDict.name
    price := if truthyS extracted.price then extracted.price else productDict.price
    description :=
      if truthyS extracted.description then
        if truthyS productDict.description &&
            !((productDict.description.getD []) == placeholderDesc) then
          some ((productDict.description.getD []) ++ '.' :: ' ' ::
            (extracted.description.getD []))
        else extracted.description
      else productDict.description
    category :=
      if truthyS extracted.category then extracted.category
      else productDict.category
    color := if truthyS extracted.color then extracted.color else productDict.color
    size := if truthyS extracted.size then extracted.size else productDict.size }

/-- Worker for `collapseWs`; the flag records whether the previous character
was whitespace (already emitted as one space). -/
def collapseWsGo : Str → Bool → Str
  | [], _ => []
  | c :: cs, prevWs =>
    if isPyWs c then
      if prevWs then collapseWsGo cs true else ' ' :: collapseWsGo cs true
    else c :: collapseWsGo cs false

/-- `re.sub(r"\s+", " ", text)`: collapse each whitespace run to one space. -/
def collapseWs (s : Str) : Str :=
  collapseWsGo s false

/-- Python slice `t[:k]` with a possibly negative bound. -/
def pySliceTo (t : Str) (k : Int) : Str :=
  if k < 0 then t.take (t.length - k.natAbs) else t.take k.toNat

/-- `sanitize_text` of helpers.py: falsy input gives `""`; whitespace runs
are collapsed and the ends stripped; with a truthy `max_length` cap, longer
text is cut to `max_length-3` characters plus `"..."`. -/
def sanitizeText (text : Option Str) (maxLength : Option Nat) : Str :=
  match text with
  | none => []
  | some t =>
    if t.isEmpty then []
    else
      match maxLength with
      | some m =>
        if m ≠ 0 ∧ m < (pyStrip (collapseWs t)).length then
          pySliceTo (pyStrip (collapseWs t)) ((m : Int) - 3) ++ '.' :: '.' :: ['.']
        else pyStrip (collapseWs t)
      | none => pyStrip (collapseWs t)

/-- First match of `\d+[\.,]?\d*` (the `re.findall` in `format_price` only
ever uses the first match): maximal digit run, then an optional single `.`
or `,` followed by a maximal digit run. -/
def grabNumber (s : Str) : Str :=
  let ds := s.takeWhile isDigitCh
  match s.drop ds.length with
  | sep :: rest => if sep = '.' || sep = ',' then ds ++ sep :: rest.takeWhile isDigitCh else ds
  | [] => ds

/-- Leftmost match of `\d+[\.,]?\d*` in `s`, if any. -/
def findNumber : Str → Option Str
  | [] => none
  | c :: cs => if isDigitCh c then some (grabNumber (c :: cs)) else findNumber cs

/-- `format_price` of helpers.py: falsy or `null`-like input gives `""`;
otherwise the first number is kept (`,` becomes `.`) and a currency marker
is attached, chosen from markers present in the original string (`₽`
appended; `$`/`€` prepended; rubles by default); with no number the
stripped string is returned unchanged. -/
def formatPrice (price : Option Str) : Str :=
  match price with
  | none => []
  | some p0 =>
    if p0.isEmpty then []
    else
      let p := pyStrip p0
      if p.isEmpty || (pyLower p == (r"null").toList) || (pyLower p == (r"none").toList)
          || (pyLower p == (r"n/a").toList) || (pyLower p == (r"не указана").toList) then []
      else
        match findNumber p with
        | some numRaw =>
          let num := numRaw.map (fun c => if c = ',' then '.' else c)
          if containsSub p ['₽'] || containsSub (pyLower p) ((r"руб").toList)
              || containsSub (pyLower p) ((r"rub").toList) then
            num ++ ['₽']
          else if containsSub p ['$'] || containsSub (pyLower p) ((r"usd").toList) then
            '$' :: num
          else if containsSub p ['€'] || containsSub (pyLower p) ((r"eur").toList) then
            '€' :: num
          else num ++ ['₽']
        | none => p

theorem truthyS_concat (x y : Str) :
    truthyS (some (x ++ '.' :: ' ' :: y)) = true := by
  cases x <;> simp [truthyS]

/-- C3 (amended): in the user-correction merge every one of the six fields
is truthy exactly when one side is truthy (so nothing truthy is lost and
nothing truthy is downgraded); in the caption merge this holds for name,
price, description and category, while the caption's color and size are
dropped (the result keeps the photo side's values). -/
theorem c3_merge_fallback (a b : ProductInfo) (e : Extracted) :
    (truthyS (applyExtracted a e).name = (truthyS e.name || truthyS a.name) ∧
     truthyS (applyExtracted a e).price = (truthyS e.price || truthyS a.price) ∧
     truthyS (applyExtracted a e).description
        = (truthyS e.description || truthyS a.description) ∧
     truthyS (applyExtracted a e).category = (truthyS e.category || truthyS a.category) ∧
     truthyS (applyExtracted a e).color = (truthyS e.color || truthyS a.color) ∧
     truthyS (applyExtracted a e).size = (truthyS e.size || truthyS a.size)) ∧
    (truthyS (mergeCaptionInfo a b).name = (truthyS b.name || truthyS a.name) ∧
     truthyS (mergeCaptionInfo a b).price = (truthyS b.price || truthyS a.price) ∧
     truthyS (mergeCaptionInfo a b).description
        = (truthyS b.description || truthyS a.description) ∧
     truthyS (mergeCaptionInfo a b).category
        = (truthyS b.category || truthyS a.category) ∧
     (mergeCaptionInfo a b).color = a.color ∧
     (mergeCaptionInfo a b).size = a.size) := by
  refine ⟨⟨?_, ?_, ?_, ?_, ?_, ?_⟩, ⟨?_, ?_, ?_, ?_, rfl, rfl⟩⟩
  · cases h : truthyS e.name <;> simp [applyExtracted, h]
  · cases h : truthyS e.price <;> simp [applyExtracted, h]
  · cases h : truthyS e.description
    · simp [applyExtracted, h]
    · simp only [applyExtracted, h, Bool.true_or, if_true]
      split
      · exact truthyS_concat _ _
      · exact h
  · cases h : truthyS e.category <;> simp [applyExtracted, h]
  · cases h : truthyS e.color <;> simp [applyExtracted, h]
  · cases h : truthyS e.size <;> simp [applyExtracted, h]
  · cases h : truthyS b.name <;> simp [mergeCaptionInfo, h]
  · cases h : truthyS b.price <;> simp [mergeCaptionInfo, h]
  · cases h : truthyS b.description
    · simp [mergeCaptionInfo, h]
    · simp only [mergeCaptionInfo, h, Bool.true_or, if_true]
      split
      · exact truthyS_concat _ _
      · exact h
  · cases h : truthyS b.category <;> simp [mergeCaptionInfo, h]

/-- C3 counterexample: the caption merge drops a color that only the
caption side carries, so the merged record is null on a field where one
input is non-null. -/
def c3PhotoSide : ProductInfo :=
  { name := some ((r"Мяч").toList) }

/-- Caption-derived record carrying only a color. -/
def c3CaptionSide : ProductInfo :=
  { color := some ((r"Синий").toList) }

theorem c3_caption_color_dropped :
    c3CaptionSide.color = some ((r"Синий").toList) ∧
    c3PhotoSide.color = none ∧
    (mergeCaptionInfo c3PhotoSide c3CaptionSide).color = none :=
  ⟨rfl, rfl, rfl⟩

/-- C8 (amended): whenever both sides carry a truthy description, the caption
merge concatenates photo description, `". "`, caption description; the
user-correction merge does the same except when the stored description is the
literal placeholder `"Не предоставлено"`, which is replaced outright. -/
theorem c8_description_concat :
    (∀ (a b : ProductInfo) (da db : Str),
       a.description = some da → da ≠ [] →
       b.description = some db → db ≠ [] →
       (mergeCaptionInfo a b).description = some (da ++ '.' :: ' ' :: db)) ∧
    (∀ (p : ProductInfo) (e : Extracted) (dp de : Str),
       p.description = some dp → dp ≠ [] → dp ≠ placeholderDesc →
       e.description = some de → de ≠ [] →
       (applyExtracted p e).description = some (dp ++ '.' :: ' ' :: de)) := by
  constructor
  · intro a b da db ha hane hb hbne
    have hta : truthyS (some da) = true := by
      cases da with
      | nil => exact absurd rfl hane
      | cons c cs => rfl
    have htb : truthyS (some db) = true := by
      cases db with
      | nil => exact absurd rfl hbne
      | cons c cs => rfl
    simp [mergeCaptionInfo, ha, hb, hta, htb]
  · intro p e dp de hp hpne hpph he hene
    have htp : truthyS (some dp) = true := by
      cases dp with
      | nil => exact absurd rfl hpne
      | cons c cs => rfl
    have hte : truthyS (some de) = true := by
      cases de with
      | nil => exact absurd rfl hene
      | cons c cs => rfl
    simp [applyExtracted, hp, he, htp, hte, hpph]

/-- Witness for C8 at concrete truthy descriptions on both sides. -/
theorem c8_description_concat_witness :
    (mergeCaptionInfo { description := some ((r"Белые").toList) }
        { description := some ((r"кеды").toList) }).description
      = some (((r"Белые").toList) ++ '.' :: ' ' :: ((r"кеды").toList)) :=
  c8_description_concat.1 _ _ _ _ rfl (by decide) rfl (by decide)

/-- Stored record whose description is the placeholder literal. -/
def c8Stored : ProductInfo :=
  { description := some placeholderDesc }

/-- User-correction text fields with a fresh description. -/
def c8Corr : Extracted :=
  { description := some ((r"Мягкие и лёгкие").toList) }

/-- C8 counterexample: both descriptions are non-null and truthy, yet the
user-correction merge replaces the stored `"Не предоставлено"` instead of
concatenating, contradicting the claim's unconditional concatenation. -/
theorem c8_placeholder_replaced :
    truthyS c8Stored.description = true ∧
    truthyS c8Corr.description = true ∧
    (applyExtracted c8Stored c8Corr).description = some ((r"Мягкие и лёгкие").toList) ∧
    ((r"Мягкие и лёгкие").toList : Str)
      ≠ placeholderDesc ++ '.' :: ' ' :: (r"Мягкие и лёгкие").toList := by
  refine ⟨by decide, by decide, by decide, by decide⟩

/-- A record with a 300-character description, as the AI extractors may
legitimately produce under the 500-character cap. -/
def c2Long : ProductInfo :=
  { description := some (List.replicate 300 'x') }

/-- C2 counterexample: the caption merge concatenates two 300-character
descriptions into a 602-character one, so a record updated by a merge step
exceeds the 500-character cap with no truncation or ellipsis. -/
theorem c2_merge_overflows_cap :
    500 < ((mergeCaptionInfo c2Long c2Long).description.getD []).length := by
  decide

/-- `sanitize_text` with the 500-character cap never returns more than 500
characters (497 kept plus the three-dot ellipsis). -/
theorem sanitizeText_length_le (t : Option Str) :
    (sanitizeText t (some 500)).length ≤ 500 := by
  cases t with
  | none => simp [sanitizeText]
  | some s =>
    by_cases hs : s.isEmpty
    · simp [sanitizeText, hs]
    · show (if s.isEmpty = true then ([] : Str)
        else if (500 : Nat) ≠ 0 ∧ 500 < (pyStrip (collapseWs s)).length then
          pySliceTo (pyStrip (collapseWs s)) ((500 : Int) - 3) ++ '.' :: '.' :: ['.']
        else pyStrip (collapseWs s)).length ≤ 500
      rw [if_neg hs]
      by_cases hlen : (500 : Nat) ≠ 0 ∧ 500 < (pyStrip (collapseWs s)).length
      · rw [if_pos hlen]
        have h1 : pySliceTo (pyStrip (collapseWs s)) ((500 : Int) - 3)
            = (pyStrip (collapseWs s)).take 497 := by
          show (if ((500 : Int) - 3) < 0 then _ else _) = _
          rw [if_neg (by norm_num)]
          congr 1
        rw [h1]
        simp only [List.length_append, List.length_take, List.length_cons,
          List.length_nil]
        omega
      · rw [if_neg hlen]
        have h2 : ¬ (500 < (pyStrip (collapseWs s)).length) :=
          fun h => hlen ⟨by norm_num, h⟩
        omega

/-- Match `\d[\d\s]*(?:[.,]\d+)?` at the start of `s` (shared by the first
two price regexes of description.py's `extract_price_from_text`): a digit,
then a greedy run of digits and whitespace, then optionally a `.` or `,`
followed by at least one digit.  Returns the matched group and the rest. -/
def numGroup1 : Str → Option (Str × Str)
  | [] => none
  | c :: cs =>
    if isDigitCh c then
      let body := (c :: cs).takeWhile (fun x => isDigitCh x || isPyWs x)
      let rest := (c :: cs).drop body.length
      match rest with
      | sep :: d :: rest2 =>
        if (sep == '.' || sep == ',') && isDigitCh d then
          let frac := (d :: rest2).takeWhile isDigitCh
          some (body ++ sep :: frac, (d :: rest2).drop frac.length)
        else some (body, rest)
      | _ => some (body, rest)
    else none

/-- `(?:₽|руб\.?|рублей|рубля)` with `re.IGNORECASE`: does a ruble marker
start here?  (The later alternatives are subsumed by `руб\.?` but kept in
the source's order.) -/
def rubMarker (s : Str) : Bool :=
  match s with
  | [] => false
  | c :: _ =>
    c == '₽' || ((r"руб").toList.isPrefixOf (pyLower (s.take 3)))
      || ((r"рублей").toList.isPrefixOf (pyLower (s.take 6)))
      || ((r"рубля").toList.isPrefixOf (pyLower (s.take 5)))

/-- Leftmost search of price pattern 1,
`(\d[\d\s]*(?:[.,]\d+)?)\s*(?:₽|руб\.?|рублей|рубля)` (IGNORECASE):
returns group 1. -/
def searchPat1 : Str → Option Str
  | [] => none
  | c :: cs =>
    match numGroup1 (c :: cs) with
    | some (g, rest) =>
      if rubMarker (rest.dropWhile isPyWs) then some g else searchPat1 cs
    | none => searchPat1 cs

/-- Case-insensitive literal prefix test (pattern given in lower case). -/
def ciPrefix (pat : Str) (s : Str) : Bool :=
  pyLower (s.take pat.length) == pat

/-- Leftmost search of price pattern 2,
`(?:цена|стоимость)[:\s]*(\d[\d\s]*(?:[.,]\d+)?)` (IGNORECASE):
returns group 1. -/
def searchPat2 : Str → Option Str
  | [] => none
  | c :: cs =>
    let t := c :: cs
    let afterKey : Option Str :=
      if ciPrefix ((r"цена").toList) t then some (t.drop 4)
      else if ciPrefix ((r"стоимость").toList) t then some (t.drop 9)
      else none
    match afterKey with
    | some rest =>
      match numGroup1 (rest.dropWhile (fun x => x == ':' || isPyWs x)) with
      | some (g, _) => some g
      | none => searchPat2 cs
    | none => searchPat2 cs

/-- Try `(\d{3,})\s*(?:,|$)` exactly at the start of `s` (the group part of
price pattern 3): a maximal digit run of three or more digits, optional
whitespace, then a comma or the end of the string (Python `$` also matches
before a final newline, which the maximal whitespace skip covers). -/
def pat3At (s : Str) : Option Str :=
  let run := s.takeWhile isDigitCh
  if 3 ≤ run.length then
    match (s.drop run.length).dropWhile isPyWs with
    | [] => some run
    | c :: _ => if c == ',' then some run else none
  else none

/-- Scan for the `,\s*(\d{3,})\s*(?:,|$)` branch of price pattern 3. -/
def searchPat3Go : Str → Option Str
  | [] => none
  | c :: cs =>
    if c == ',' then
      match pat3At (cs.dropWhile isPyWs) with
      | some g => some g
      | none => searchPat3Go cs
    else searchPat3Go cs

/-- Leftmost search of price pattern 3, `(?:^|,\s*)(\d{3,})\s*(?:,|$)`:
the `^` branch at position zero, then the comma branch at each comma. -/
def searchPat3 (s : Str) : Option Str :=
  match pat3At s with
  | some g => some g
  | none => searchPat3Go s

/-- First match of the fallback `\b(\d{3,})\b`: a maximal digit run of at
least three digits preceded and followed by a non-word character or the
string edge.  The first component is the previous character. -/
def boundNumGo : Option Char → Str → Option Str
  | _, [] => none
  | prev, c :: cs =>
    if isDigitCh c && (match prev with | none => true | some p => !isWordCh p) then
      let run := (c :: cs).takeWhile isDigitCh
      if 3 ≤ run.length &&
          (match (c :: cs).drop run.length with
            | [] => true
            | d :: _ => !isWordCh d) then
        some run
      else boundNumGo (some c) cs
    else boundNumGo (some c) cs

/-- `re.findall(r"\b(\d{3,})\b", text)` restricted to its first element. -/
def searchBoundNum (s : Str) : Option Str :=
  boundNumGo none s

/-- Python `float(...)` acceptance for the cleaned group shapes produced by
the price patterns (digits and at most one dot, no signs or exponents). -/
def pyFloatOk (s : Str) : Bool :=
  !s.isEmpty && s.all (fun c => isDigitCh c || c == '.') &&
    decide (s.countP (fun c => c == '.') ≤ 1) && s.any isDigitCh

/-- `price = match.group(1).replace(" ", "").replace(",", ".")` followed by
the `float` check; on success the returned price is `f"{price} ₽"`. -/
def patResult (g : Str) : Option Str :=
  let cleaned := (g.filter (fun c => !(c == ' '))).map (fun c => if c = ',' then '.' else c)
  if pyFloatOk cleaned then some (cleaned ++ ' ' :: ['₽']) else none

/-- The pattern loop of `extract_price_from_text` (description.py): try each
pattern; a match whose cleaned group fails the float check falls through to
the next pattern; after all patterns, fall back to the first `\b\d{3,}\b`
number as `f"{numbers[0]} ₽"`. -/
def tryPats (text : Str) : List (Str → Option Str) → Option Str
  | [] =>
    match searchBoundNum text with
    | some run => some (run ++ ' ' :: ['₽'])
    | none => none
  | pat :: rest =>
    match (pat text).bind patResult with
    | some p => some p
    | none => tryPats text rest

/-- `extract_price_from_text` of description.py. -/
def extractPriceFromText (text : Str) : Option Str :=
  if text.isEmpty then none
  else tryPats text [searchPat1, searchPat2, searchPat3]

/-- Greedy optional ruble marker of the price-removal pattern
`(?:₽|руб\.?|рублей|рубля|р\.?|р\b)?` (description.py line 97; this `re.sub`
has no IGNORECASE flag, so matching is case-sensitive): returns the number
of characters the marker consumes (possibly zero). -/
def rubMarkerLen (s : Str) : Nat :=
  match s with
  | [] => 0
  | c :: cs =>
    if c = '₽' then 1
    else if (r"руб").toList.isPrefixOf (c :: cs) then
      match (c :: cs).drop 3 with
      | '.' :: _ => 4
      | _ => 3
    else if c = 'р' then
      match cs with
      | '.' :: _ => 2
      | _ => 1
    else 0

/-- Length of the leftmost-match span of the price-removal pattern
`\d[\d\s]*(?:[.,]\d+)?\s*(?:₽|руб\.?|рублей|рубля|р\.?|р\b)?` when it starts
at `s` (which must begin with a digit). -/
def priceSubLen (s : Str) : Option Nat :=
  match numGroup1 s with
  | some (g, rest) =>
    let wsLen := (rest.takeWhile isPyWs).length
    some (g.length + wsLen + rubMarkerLen (rest.drop wsLen))
  | none => none

/-- `re.sub(r"\d[\d\s]*(?:[.,]\d+)?\s*(?:₽|руб\.?|рублей|рубля|р\.?|р\b)?",
"", working_text, count=1)`: remove the leftmost match (every digit
position matches because the marker is optional). -/
def subPriceOnce : Str → Str
  | [] => []
  | c :: cs =>
    if isDigitCh c then
      match priceSubLen (c :: cs) with
      | some n => (c :: cs).drop n
      | none => c :: cs
    else c :: subPriceOnce cs

/-- Separator class `[:\s\-]` used by the category and size label patterns. -/
def sepCh (c : Char) : Bool :=
  c == ':' || isPyWs c || c == '-'

/-- Match `категори[яю][:\s\-]+\s*([^,\n]+)` (IGNORECASE) at the start of
`s`: returns the match length and group 1.  When the greedy separator run
leaves an empty group (next char is `,`/newline/end), the regex backtracks
one separator character into the group when the run has at least two. -/
def kategoriAt (s : Str) : Option (Nat × Str) :=
  if ciPrefix ((r"категори").toList) s then
    match s.drop 8 with
    | c :: r1 =>
      if toLowerCh c == 'я' || toLowerCh c == 'ю' then
        let sep := (r1.takeWhile sepCh).length
        if sep = 0 then none
        else
          let g := (r1.drop sep).takeWhile (fun x => !(x == ',') && !(x == '\n'))
          if g.isEmpty then
            if 2 ≤ sep then some (9 + sep, (r1.drop (sep - 1)).take 1)
            else none
          else some (9 + sep + g.length, g)
      else none
    | [] => none
  else none

/-- Leftmost search of the category pattern: returns group 1. -/
def searchKategori : Str → Option Str
  | [] => none
  | c :: cs =>
    match kategoriAt (c :: cs) with
    | some (_, g) => some g
    | none => searchKategori cs

/-- Length of a match of the category-removal pattern
`категори[яю][:\s\-]+\s*[^,\n]+[,]?\s*` (IGNORECASE) at the start of `s`. -/
def kategoriSubAt (s : Str) : Option Nat :=
  match kategoriAt s with
  | some (n, _) =>
    match s.drop n with
    | ',' :: r2 => some (n + 1 + (r2.takeWhile isPyWs).length)
    | r => some (n + (r.takeWhile isPyWs).length)
  | none => none

/-- `re.sub` of the category-removal pattern over all occurrences, scanning
left to right.  The fuel is the string length; every step consumes at least
one character, so it never runs out. -/
def subAllKategoriGo : Nat → Str → Str
  | 0, s => s
  | _ + 1, [] => []
  | fuel + 1, c :: cs =>
    match kategoriSubAt (c :: cs) with
    | some n => subAllKategoriGo fuel ((c :: cs).drop n)
    | none => c :: subAllKategoriGo fuel cs

/-- `re.sub(r"категори[яю][:\s\-]+\s*[^,\n]+[,]?\s*", "", working_text,
flags=re.IGNORECASE)`. -/
def subAllKategori (s : Str) : Str :=
  subAllKategoriGo s.length s

/-- Match `размер[:\s\-]+([^,\n]+)` (IGNORECASE) at the start of `s`:
returns the match length and group 1 (with the same backtracking rule as
the category pattern). -/
def razmerAt (s : Str) : Option (Nat × Str) :=
  if ciPrefix ((r"размер").toList) s then
    let r1 := s.drop 6
    let sep := (r1.takeWhile sepCh).length
    if sep = 0 then none
    else
      let g := (r1.drop sep).takeWhile (fun x => !(x == ',') && !(x == '\n'))
      if g.isEmpty then
        if 2 ≤ sep then some (6 + sep, (r1.drop (sep - 1)).take 1)
        else none
      else some (6 + sep + g.length, g)
  else none

/-- Leftmost search of the size-label pattern, returning
(text before the match, group 1, text after the match). -/
def scanRazmer : Str → Str → Option (Str × Str × Str)
  | _, [] => none
  | acc, c :: cs =>
    match razmerAt (c :: cs) with
    | some (n, g) => some (acc.reverse, g, (c :: cs).drop n)
    | none => scanRazmer (c :: acc) cs

/-- Word-boundary test for the character following a matched word. -/
def boundaryAfter : Str → Bool
  | [] => true
  | c :: _ => !isWordCh c

/-- First alternative of a `\b(w1|w2|...)\b` alternation (IGNORECASE, in
the source's order) matching at `s` with a trailing boundary; returns its
length. -/
def wordAltAt (ws : List Str) (s : Str) : Option Nat :=
  match ws with
  | [] => none
  | w :: rest =>
    if ciPrefix w s && w.length ≤ s.length && boundaryAfter (s.drop w.length) then
      some w.length
    else wordAltAt rest s

/-- Scan for `\b(alternation)\b`: at every position whose previous character
is a non-word character (or the start), try the alternatives in order.
Returns (before, matched slice, after). -/
def scanBounded (ws : List Str) : Str → Option Char → Str → Option (Str × Str × Str)
  | _, _, [] => none
  | acc, prev, c :: cs =>
    if (match prev with | none => true | some p => !isWordCh p) then
      match wordAltAt ws (c :: cs) with
      | some n => some (acc.reverse, (c :: cs).take n, (c :: cs).drop n)
      | none => scanBounded ws (c :: acc) (some c) cs
    else scanBounded ws (c :: acc) (some c) cs

/-- The size-code alternation `xl|xxl|xxxl|xs|s|m|l` in source order. -/
def sizeCodes : List Str :=
  [(r"xl").toList, (r"xxl").toList, (r"xxxl").toList, (r"xs").toList,
   (r"s").toList, (r"m").toList, (r"l").toList]

/-- The qualitative-size alternation
`большой|средний|маленький|огромный|мини` in source order. -/
def sizeWords : List Str :=
  [(r"большой").toList, (r"средний").toList, (r"маленький").toList,
   (r"огромный").toList, (r"мини").toList]

/-- Unit alternation `(?:см|мм|м|x|х)` (IGNORECASE, source order; the last
alternative is the Cyrillic letter): returns the consumed length. -/
def unitLen (s : Str) : Option Nat :=
  if ciPrefix ((r"см").toList) s then some 2
  else if ciPrefix ((r"мм").toList) s then some 2
  else if ciPrefix ((r"м").toList) s then some 1
  else if ciPrefix ((r"x").toList) s then some 1
  else if ciPrefix ((r"х").toList) s then some 1
  else none

/-- Match `\d+\s*(?:см|мм|м|x|х)\s*\d*` at the start of `s` (the group of
the dimensional size pattern): returns the match length. -/
def dimAt (s : Str) : Option Nat :=
  let ds := s.takeWhile isDigitCh
  if ds.isEmpty then none
  else
    let r1 := s.drop ds.length
    let ws1 := (r1.takeWhile isPyWs).length
    match unitLen (r1.drop ws1) with
    | some u =>
      let r3 := (r1.drop ws1).drop u
      let ws2 := (r3.takeWhile isPyWs).length
      let ds2 := ((r3.drop ws2).takeWhile isDigitCh).length
      some (ds.length + ws1 + u + ws2 + ds2)
    | none => none

/-- Scan for `\b(\d+\s*(?:см|мм|м|x|х)\s*\d*)`: the leading boundary
requires a non-word character (or the start) before the first digit. -/
def scanDim : Str → Option Char → Str → Option (Str × Str × Str)
  | _, _, [] => none
  | acc, prev, c :: cs =>
    if (match prev with | none => true | some p => !isWordCh p) then
      match dimAt (c :: cs) with
      | some n => some (acc.reverse, (c :: cs).take n, (c :: cs).drop n)
      | none => scanDim (c :: acc) (some c) cs
    else scanDim (c :: acc) (some c) cs

/-- The size step of `extract_product_info_locally`: try the four size
patterns in source order; on the first match, the size is the stripped
group and the match span is removed (`count=1`) and the text stripped. -/
def searchSize (w : Str) : Option (Str × Str) :=
  match scanRazmer [] w with
  | some (b, g, a) => some (pyStrip g, pyStrip (b ++ a))
  | none =>
    match scanBounded sizeCodes [] none w with
    | some (b, g, a) => some (pyStrip g, pyStrip (b ++ a))
    | none =>
      match scanDim [] none w with
      | some (b, g, a) => some (pyStrip g, pyStrip (b ++ a))
      | none =>
        match scanBounded sizeWords [] none w with
        | some (b, g, a) => some (pyStrip g, pyStrip (b ++ a))
        | none => none

/-- The color vocabulary of `extract_product_info_locally` in the source
dictionary's insertion order: surface form paired with canonical name. -/
def colorPairs : List (Str × Str) :=
  [((r"красный").toList, (r"Красный").toList),
   ((r"красная").toList, (r"Красный").toList),
   ((r"красное").toList, (r"Красный").toList),
   ((r"синий").toList, (r"Синий").toList),
   ((r"синяя").toList, (r"Синий").toList),
   ((r"синее").toList, (r"Синий").toList),
   ((r"зелёный").toList, (r"Зелёный").toList),
   ((r"зеленый").toList, (r"Зелёный").toList),
   ((r"зелёная").toList, (r"Зелёный").toList),
   ((r"зеленая").toList, (r"Зелёный").toList),
   ((r"жёлтый").toList, (r"Жёлтый").toList),
   ((r"желтый").toList, (r"Жёлтый").toList),
   ((r"белый").toList, (r"Белый").toList),
   ((r"белая").toList, (r"Белый").toList),
   ((r"белое").toList, (r"Белый").toList),
   ((r"чёрный").toList, (r"Чёрный").toList),
   ((r"черный").toList, (r"Чёрный").toList),
   ((r"чёрная").toList, (r"Чёрный").toList),
   ((r"черная").toList, (r"Чёрный").toList),
   ((r"розовый").toList, (r"Розовый").toList),
   ((r"розовая").toList, (r"Розовый").toList),
   ((r"оранжевый").toList, (r"Оранжевый").toList),
   ((r"оранжевая").toList, (r"Оранжевый").toList),
   ((r"фиолетовый").toList, (r"Фиолетовый").toList),
   ((r"фиолетовая").toList, (r"Фиолетовый").toList),
   ((r"голубой").toList, (r"Голубой").toList),
   ((r"голубая").toList, (r"Голубой").toList),
   ((r"серый").toList, (r"Серый").toList),
   ((r"серая").toList, (r"Серый").toList),
   ((r"коричневый").toList, (r"Коричневый").toList),
   ((r"коричневая").toList, (r"Коричневый").toList),
   ((r"бежевый").toList, (r"Бежевый").toList),
   ((r"бежевая").toList, (r"Бежевый").toList)]

/-- `for color_word, color_name in colors.items(): if color_word in
working_text.lower()`: the first surface form occurring in the lowered
text wins. -/
def findColor (w : Str) : Option (Str × Str) :=
  colorPairs.find? (fun p => containsSub (pyLower w) p.1)

/-- Length of a match of `цвет\s+{word}` (IGNORECASE) at the start of `s`. -/
def tsvetWordAt (word : Str) (s : Str) : Option Nat :=
  if ciPrefix ((r"цвет").toList) s then
    let r1 := s.drop 4
    let ws := (r1.takeWhile isPyWs).length
    if ws = 0 then none
    else if ciPrefix word (r1.drop ws) then some (4 + ws + word.length)
    else none
  else none

/-- `re.sub(rf"цвет\s+{color_word}", "", working_text, flags=re.IGNORECASE)`
over all occurrences (fuel = string length; every step consumes a
character). -/
def subAllTsvetGo (word : Str) : Nat → Str → Str
  | 0, s => s
  | _ + 1, [] => []
  | fuel + 1, c :: cs =>
    match tsvetWordAt word (c :: cs) with
    | some n => subAllTsvetGo word fuel ((c :: cs).drop n)
    | none => c :: subAllTsvetGo word fuel cs

/-- All-occurrence removal of the `цвет <word>` phrase. -/
def subAllTsvet (word : Str) (s : Str) : Str :=
  subAllTsvetGo word s.length s

/-- `re.sub(rf"\b{color_word}\b", "", working_text, flags=re.IGNORECASE)`
over all occurrences; boundaries are judged in the original string, so the
previous character is threaded through (after a removal it is the removed
word's last character). -/
def subAllWordGo (word : Str) : Nat → Option Char → Str → Str
  | 0, _, s => s
  | _ + 1, _, [] => []
  | fuel + 1, prev, c :: cs =>
    if (match prev with | none => true | some p => !isWordCh p) &&
        ciPrefix word (c :: cs) && word.length ≤ (c :: cs).length &&
        boundaryAfter ((c :: cs).drop word.length) then
      subAllWordGo word fuel (((c :: cs).take word.length).getLast? )
        ((c :: cs).drop word.length)
    else c :: subAllWordGo word fuel (some c) cs

/-- All-occurrence bounded-word removal. -/
def subAllWord (word : Str) (s : Str) : Str :=
  subAllWordGo word s.length none s

/-- `re.sub(r"\s*,\s*", ", ", working_text)`: each comma together with its
surrounding whitespace becomes `", "` (fuel = string length). -/
def commaSpaceGo : Nat → Str → Str
  | 0, s => s
  | _ + 1, [] => []
  | fuel + 1, c :: cs =>
    if isPyWs c || c == ',' then
      let wsLen := ((c :: cs).takeWhile isPyWs).length
      match (c :: cs).drop wsLen with
      | ',' :: rest2 =>
        ',' :: ' ' :: commaSpaceGo fuel (rest2.drop (rest2.takeWhile isPyWs).length)
      | _ => c :: commaSpaceGo fuel cs
    else c :: commaSpaceGo fuel cs

/-- All-occurrence `\s*,\s*` → `", "` substitution. -/
def commaSpaceSub (s : Str) : Str :=
  commaSpaceGo s.length s

/-- Description keyword filter of the name/description split:
`["размер", "категори", "цвет", "букет"]`. -/
def descKeywords : List Str :=
  [(r"размер").toList, (r"категори").toList, (r"цвет").toList, (r"букет").toList]

/-- `extract_product_info_locally` of description.py: strip the text, pull
out price, category, size and color in that order (each removing its match
from the working text), normalise commas and whitespace, then split the
remainder on commas — the first part becomes the capitalised name, the
remaining parts (minus any that still contain a size/category/color/bouquet
keyword) join with `", "` into the description. -/
def extractProductInfoLocally (text : Str) : ProductInfo :=
  if text.isEmpty then {}
  else
    let t := pyStrip text
    let price? := extractPriceFromText t
    let w1 := match price? with
      | some _ => pyStrip (subPriceOnce t)
      | none => t
    let cat? := (searchKategori w1).map (fun g => pyCapitalize (pyStrip g))
    let w2 := match searchKategori w1 with
      | some _ => pyStrip (subAllKategori w1)
      | none => w1
    let sizeStep := searchSize w2
    let size? := sizeStep.map Prod.fst
    let w3 := match sizeStep with
      | some (_, w) => w
      | none => w2
    let colorStep := findColor w3
    let color? := colorStep.map Prod.snd
    let w4 := match colorStep with
      | some (word, _) => pyStrip (subAllWord word (pyStrip (subAllTsvet word w3)))
      | none => w3
    let w5 := pyStrip (collapseWs (commaSpaceSub w4))
    let w6 := pyStrip (pyStripChar ',' w5)
    let parts := ((pySplitChar ',' w6).map pyStrip).filter (fun p => !p.isEmpty)
    match w6.isEmpty, parts with
    | false, p0 :: restParts =>
      let descParts := restParts.filter (fun p => !p.isEmpty &&
        !(descKeywords.any (fun kw => containsSub (pyLower p) kw)))
      { name := some (pyCapitalize p0)
        price := price?
        description := if descParts.isEmpty then none
          else some (joinWith (',' :: [' ']) descParts)
        category := cat?
        color := color?
        size := size? }
    | _, _ =>
      { price := price?, category := cat?, color := color?, size := size? }

theorem patResult_ends (g p : Str) (h : patResult g = some p) :
    ∃ q, p = q ++ ' ' :: ['₽'] := by
  simp only [patResult] at h
  split at h
  · exact ⟨_, (Option.some.inj h).symm⟩
  · cases h

theorem tryPats_ends (text p : Str) :
    ∀ pats, tryPats text pats = some p → ∃ q, p = q ++ ' ' :: ['₽'] := by
  intro pats
  induction pats with
  | nil =>
    intro h
    unfold tryPats at h
    cases hb : searchBoundNum text with
    | none => rw [hb] at h; cases h
    | some run =>
      rw [hb] at h
      exact ⟨run, (Option.some.inj h).symm⟩
  | cons pat rest ih =>
    intro h
    unfold tryPats at h
    cases hm : (pat text).bind patResult with
    | none => rw [hm] at h; exact ih h
    | some q =>
      rw [hm] at h
      obtain rfl : q = p := Option.some.inj h
      obtain ⟨g, _, hpr⟩ := Option.bind_eq_some.mp hm
      exact patResult_ends g _ hpr

/-- The claim's worked example input, `"Кеды, 3400 руб, синие"`. -/
def c5Input : Str := (r"Кеды, 3400 руб, синие").toList

/-- C5 (amended): every price the heuristic extractor returns ends in the
ruble marker (as `"<number> ₽"`, with a space before the marker); on the
worked example the extractor yields name `"Кеды"`, price `"3400 ₽"`,
description `"синие"`, and no category, color (the plural `"синие"` is not
in the color vocabulary) or size. -/
theorem c5_heuristic_price :
    (∀ t p, extractPriceFromText t = some p → ∃ q, p = q ++ ' ' :: ['₽']) ∧
    (extractProductInfoLocally c5Input).name = some ((r"Кеды").toList) ∧
    (extractProductInfoLocally c5Input).price = some ((r"3400 ₽").toList) ∧
    (extractProductInfoLocally c5Input).description = some ((r"синие").toList) ∧
    (extractProductInfoLocally c5Input).category = none ∧
    (extractProductInfoLocally c5Input).color = none ∧
    (extractProductInfoLocally c5Input).size = none := by
  refine ⟨?_, by decide, by decide, by decide, by decide, by decide, by decide⟩
  intro t p h
  unfold extractPriceFromText at h
  split at h
  · cases h
  · exact tryPats_ends t p _ h

/-- Witness for C5 at the concrete example price. -/
theorem c5_heuristic_price_witness :
    ∃ q, ((r"3400 ₽").toList : Str) = q ++ ' ' :: ['₽'] :=
  c5_heuristic_price.1 c5Input ((r"3400 ₽").toList) (by decide)

/-- C5 counterexample: on the claim's own example the extracted price is
`"3400 ₽"` (with a space before the marker), not `"3400₽"`, and the color
is null rather than `"Синий"` because the plural surface form `"синие"` is
absent from the color dictionary. -/
theorem c5_example_diverges :
    (extractProductInfoLocally c5Input).price = some ((r"3400 ₽").toList) ∧
    ((r"3400 ₽").toList : Str) ≠ (r"3400₽").toList ∧
    (extractProductInfoLocally c5Input).color = none ∧
    some ((r"Синий").toList) ≠ (extractProductInfoLocally c5Input).color := by
  exact ⟨by decide, by decide, by decide, by decide⟩

/-- Hexadecimal digit value, for `\uXXXX` string escapes. -/
def hexVal (c : Char) : Option Nat :=
  if isDigitCh c then some (c.toNat - 48)
  else if 'a' ≤ c && c ≤ 'f' then some (c.toNat - 87)
  else if 'A' ≤ c && c ≤ 'F' then some (c.toNat - 55)
  else none

/-- Single-character JSON string escapes. -/
def escChar (e : Char) : Option Char :=
  if e = '"' then some '"'
  else if e = '\\' then some '\\'
  else if e = '/' then some '/'
  else if e = 'b' then some '\x08'
  else if e = 'f' then some '\x0c'
  else if e = 'n' then some '\n'
  else if e = 'r' then some '\r'
  else if e = 't' then some '\t'
  else none

/-- Body of a JSON string after the opening quote, per strict `json.loads`:
escapes are decoded (a lone `\uXXXX` becomes the character of that code;
surrogate-pair recombination is not modelled — no input here uses it), raw
control characters below 0x20 are rejected.  Returns the decoded content
and the rest after the closing quote. -/
def parseStringBody : Str → Str → Option (Str × Str)
  | _, [] => none
  | acc, c :: cs =>
    if c = '"' then some (acc.reverse, cs)
    else if c = '\\' then
      match cs with
      | 'u' :: h1 :: h2 :: h3 :: h4 :: cs3 =>
        match hexVal h1, hexVal h2, hexVal h3, hexVal h4 with
        | some a, some b, some c2, some d =>
          parseStringBody (Char.ofNat (((a * 16 + b) * 16 + c2) * 16 + d) :: acc) cs3
        | _, _, _, _ => none
      | e :: cs2 =>
        match escChar e with
        | some ch => parseStringBody (ch :: acc) cs2
        | none => none
      | [] => none
    else if c.toNat < 32 then none
    else parseStringBody (c :: acc) cs

/-- JSON number literal per the scanner regex
`(-?(?:0|[1-9]\d*))(\.\d+)?([eE][-+]?\d+)?`: returns the matched literal
and the rest. -/
def parseNumberLit (s : Str) : Option (Str × Str) :=
  let negLen : Nat := match s with | '-' :: _ => 1 | _ => 0
  match s.drop negLen with
  | c :: cs =>
    if isDigitCh c then
      let intLen := if c = '0' then 1 else 1 + (cs.takeWhile isDigitCh).length
      let afterInt := (s.drop negLen).drop intLen
      let fracLen : Nat :=
        match afterInt with
        | '.' :: d :: _ =>
          if isDigitCh d then 1 + ((afterInt.drop 1).takeWhile isDigitCh).length else 0
        | _ => 0
      let afterFrac := afterInt.drop fracLen
      let expLen : Nat :=
        match afterFrac with
        | e :: r1 =>
          if e = 'e' || e = 'E' then
            let signLen : Nat := match r1 with | '+' :: _ => 1 | '-' :: _ => 1 | _ => 0
            let ds := (r1.drop signLen).takeWhile isDigitCh
            if ds.isEmpty then 0 else 1 + signLen + ds.length
          else 0
        | _ => 0
      let total := negLen + intLen + fracLen + expLen
      some (s.take total, s.drop total)
    else none
  | [] => none

mutual

/-- One JSON value at the start of the input, per `json.loads`' scanner:
object, array, string, `true`/`false`/`null`, the `NaN`/`Infinity`
constants, or a number.  The fuel only bounds container nesting and member
counts; every recursive call first consumes at least one character, so an
initial fuel of `length + 1` never runs out. -/
def parseValue : Nat → Str → Option (Json × Str)
  | 0, _ => none
  | _ + 1, [] => none
  | fuel + 1, c :: cs =>
    if c = '{' then
      match cs.dropWhile isJsonWs with
      | '}' :: r2 => some (Json.obj [], r2)
      | r => parseMembers fuel [] r
    else if c = '[' then
      match cs.dropWhile isJsonWs with
      | ']' :: r2 => some (Json.arr [], r2)
      | r => parseElements fuel [] r
    else if c = '"' then
      match parseStringBody [] cs with
      | some (sVal, r) => some (Json.str sVal, r)
      | none => none
    else if (r"true").toList.isPrefixOf (c :: cs) then
      some (Json.bool true, (c :: cs).drop 4)
    else if (r"false").toList.isPrefixOf (c :: cs) then
      some (Json.bool false, (c :: cs).drop 5)
    else if (r"null").toList.isPrefixOf (c :: cs) then
      some (Json.null, (c :: cs).drop 4)
    else if (r"NaN").toList.isPrefixOf (c :: cs) then
      some (Json.num ((r"NaN").toList), (c :: cs).drop 3)
    else if (r"Infinity").toList.isPrefixOf (c :: cs) then
      some (Json.num ((r"Infinity").toList), (c :: cs).drop 8)
    else if (r"-Infinity").toList.isPrefixOf (c :: cs) then
      some (Json.num ((r"-Infinity").toList), (c :: cs).drop 9)
    else
      match parseNumberLit (c :: cs) with
      | some (lit, r) => some (Json.num lit, r)
      | none => none

/-- Members of an object after `{` (and any whitespace), positioned at a
key's opening quote. -/
def parseMembers : Nat → List (Str × Json) → Str → Option (Json × Str)
  | 0, _, _ => none
  | fuel + 1, acc, s =>
    match s with
    | '"' :: rest =>
      match parseStringBody [] rest with
      | some (key, r1) =>
        match r1.dropWhile isJsonWs with
        | ':' :: r2 =>
          match parseValue fuel (r2.dropWhile isJsonWs) with
          | some (v, r3) =>
            match r3.dropWhile isJsonWs with
            | ',' :: r4 => parseMembers fuel ((key, v) :: acc) (r4.dropWhile isJsonWs)
            | '}' :: r4 => some (Json.obj ((key, v) :: acc).reverse, r4)
            | _ => none
          | none => none
        | _ => none
      | none => none
    | _ => none

/-- Elements of an array after `[` (and any whitespace). -/
def parseElements : Nat → List Json → Str → Option (Json × Str)
  | 0, _, _ => none
  | fuel + 1, acc, s =>
    match parseValue fuel s with
    | some (v, r1) =>
      match r1.dropWhile isJsonWs with
      | ',' :: r2 => parseElements fuel (v :: acc) (r2.dropWhile isJsonWs)
      | ']' :: r2 => some (Json.arr (v :: acc).reverse, r2)
      | _ => none
    | none => none

end

/-- Strip JSON whitespace from both ends (what `json.loads` tolerates
around the single top-level value). -/
def jsonTrim (s : Str) : Str :=
  ((s.dropWhile isJsonWs).reverse.dropWhile isJsonWs).reverse

/-- `json.loads`: exactly one JSON value surrounded by JSON whitespace;
anything else (including trailing data) is a decode error, modelled as
`none`. -/
def loads (s : Str) : Option Json :=
  match parseValue ((jsonTrim s).length + 1) (jsonTrim s) with
  | some (v, []) => some v
  | _ => none

/-- Split at the first occurrence of a triple backtick: returns the text
before it and the text after it. -/
def findFence : Str → Option (Str × Str)
  | c1 :: c2 :: c3 :: rest =>
    if c1 = '`' && c2 = '`' && c3 = '`' then some ([], rest)
    else (findFence (c2 :: c3 :: rest)).map (fun p => (c1 :: p.1, p.2))
  | _ => none

/-- `re.findall(r"```(?:json)?\s*([\s\S]*?)```", text)`: pair up fences left
to right; after an opening fence skip an optional `json` tag and whitespace,
then take the lazy content up to the next fence (fuel = string length;
every iteration consumes at least the two fences). -/
def codeBlocksGo : Nat → Str → List Str
  | 0, _ => []
  | fuel + 1, s =>
    match findFence s with
    | none => []
    | some (_, afterOpen) =>
      let r1 := if (r"json").toList.isPrefixOf afterOpen then afterOpen.drop 4 else afterOpen
      match findFence (r1.dropWhile isPyWs) with
      | none => []
      | some (content, rest) => content :: codeBlocksGo fuel rest

/-- All fenced code-block groups of the text, in order. -/
def codeBlocks (s : Str) : List Str :=
  codeBlocksGo s.length s

/-- The block loop of `extract_json_from_text`: return the first block whose
stripped content parses. -/
def firstParsedBlock : List Str → Option Json
  | [] => none
  | b :: bs =>
    match loads (pyStrip b) with
    | some j => some j
    | none => firstParsedBlock bs

/-- Python `str.find(ch)` as an optional index. -/
def findCharIdx (ch : Char) : Str → Option Nat
  | [] => none
  | c :: cs => if c == ch then some 0 else (findCharIdx ch cs).map (· + 1)

/-- Python `str.rfind(ch)` as an optional index. -/
def rfindCharIdx (ch : Char) (s : Str) : Option Nat :=
  match findCharIdx ch s.reverse with
  | some i => some (s.length - 1 - i)
  | none => none

/-- The third strategy of `extract_json_from_text`: the substring from the
first `{` to the last `}` (`text[json_start:json_end]` with
`json_end = rfind + 1`), parsed when the span is non-empty. -/
def bracesFallback (text : Str) : Option Json :=
  match findCharIdx '{' text, rfindCharIdx '}' text with
  | some a, some b =>
    if a < b + 1 then loads ((text.drop a).take (b + 1 - a)) else none
  | _, _ => none

/-- `extract_json_from_text` of helpers.py: direct parse, then each fenced
code block in order, then the brace substring; `None` when all fail. -/
def extractJsonFromText (text : Str) : Option Json :=
  match loads text with
  | some j => some j
  | none =>
    match firstParsedBlock (codeBlocks text) with
    | some j => some j
    | none => bracesFallback text

/-- Modelled from the claim's wording, for comparison with
`extractJsonFromText`: the same strategies but with only the FIRST fenced
code block tried, as claim C7 states them. -/
def extractJsonSpecOrder (text : Str) : Option Json :=
  match loads text with
  | some j => some j
  | none =>
    match (codeBlocks text).head? with
    | some b =>
      match loads (pyStrip b) with
      | some j => some j
      | none => bracesFallback text
    | none => bracesFallback text

/-- Raw `dict.get(key)` on a parsed JSON object: the value of the last
occurrence of the key (`json.loads` keeps the last duplicate), `none` when
absent or when applied to a non-object. -/
def jsonGetRaw (j : Json) (key : Str) : Option Json :=
  match j with
  | Json.obj fields => ((fields.filter (fun p => p.1 == key)).getLast?).map Prod.snd
  | _ => none

/-- `data.get(key)` as observed by the parsers: a JSON `null` value is the
Python `None` object, indistinguishable from an absent key. -/
def jsonGet (j : Json) (key : Str) : Option Json :=
  match jsonGetRaw j key with
  | some Json.null => none
  | v => v

/-- Is a JSON number literal numerically zero (`0`, `-0.0`, `0e5`, ...)?
Literals with no digits (`NaN`, `Infinity`) are not zero. -/
def isZeroLit (lit : Str) : Bool :=
  lit.any isDigitCh && !(lit.any (fun c => isDigitCh c && !(c == '0')))

/-- Python truthiness of a fetched JSON field. -/
def jsonTruthy : Option Json → Bool
  | none => false
  | some Json.null => false
  | some (Json.bool b) => b
  | some (Json.num lit) => !isZeroLit lit
  | some (Json.str s) => !s.isEmpty
  | some (Json.arr es) => !es.isEmpty
  | some (Json.obj fs) => !fs.isEmpty

/-- Python `a or b` over fetched JSON fields. -/
def pyOrJson (a b : Option Json) : Option Json :=
  if jsonTruthy a then a else b

/-- Field value handed to `sanitize_text`: a JSON string as is, absent or
null as Python `None` (sanitised to `""`).  Fields of other JSON types make
the original raise `TypeError` inside `re.sub`, which the calling
analyzer's `except` turns into its fallback; the claims only exercise
string or absent fields, so those cases are also mapped to `none`. -/
def strField (v : Option Json) : Option Str :=
  match v with
  | some (Json.str s) => some s
  | _ => none

/-- Field value handed to `format_price`, which applies `str(...)` first: a
string as is; a number as its literal (its truthiness matches `str` output
for the integer payloads exercised here, and a zero number is falsy like
`None`); `True` as `"True"`; anything falsy as `none`. -/
def jsonFieldToStr (v : Option Json) : Option Str :=
  match v with
  | some (Json.str s) => some s
  | some (Json.num lit) => if isZeroLit lit then none else some lit
  | some (Json.bool b) => if b then some ((r"True").toList) else none
  | _ => none

/-- A truthy vision price stored "as is" (`price if price else None`,
deliberately unformatted in `_parse_vision_response`): a string stays
itself, a number stays its literal spelling. -/
def strFieldLoose (v : Option Json) : Option Str :=
  match v with
  | some (Json.str s) => some s
  | some (Json.num lit) => some lit
  | _ => none

/-- The record built by `_parse_ai_response` (text_analyzer.py) from truthy
parsed data: text fields sanitised, the description capped at 500, the
price put through `format_price`, `other_features` defaulting to `{}` when
the key is absent. -/
def aiRecordOfData (data : Json) : ProductInfo :=
  { name := some (sanitizeText (strField (jsonGet data ((r"name").toList))) none)
    price := some (formatPrice (jsonFieldToStr (jsonGet data ((r"price").toList))))
    description :=
      some (sanitizeText (strField (jsonGet data ((r"description").toList))) (some 500))
    category := some (sanitizeText (strField (jsonGet data ((r"category").toList))) none)
    color := some (sanitizeText (strField (jsonGet data ((r"color").toList))) none)
    size := some (sanitizeText (strField (jsonGet data ((r"size").toList))) none)
    otherFeatures :=
      match jsonGetRaw data ((r"other_features").toList) with
      | none => some (Json.obj [])
      | some Json.null => none
      | some v => some v }

/-- `_parse_ai_response`: extract JSON from the response; falsy data (no
JSON, JSON `null`, or an empty object) gives the empty `ProductInfo()`;
truthy non-object data makes `.get` raise `AttributeError` (here `none`,
absorbed by the caller's `except`). -/
def parseAiResponse (response : Str) : Option ProductInfo :=
  let data? := extractJsonFromText response
  if jsonTruthy data? then
    match data? with
    | some (Json.obj fields) => some (aiRecordOfData (Json.obj fields))
    | _ => none
  else some {}

/-- The record built by `_parse_vision_response` (vision_analyzer.py):
name from `product_name or name`; the price from
`price or estimated_price_range or estimated_price`, stored unformatted
("Не форматировать, использовать как есть"); description capped at 500. -/
def visionRecordOfData (data : Json) : ProductInfo :=
  let priceField :=
    pyOrJson (jsonGet data ((r"price").toList))
      (pyOrJson (jsonGet data ((r"estimated_price_range").toList))
        (jsonGet data ((r"estimated_price").toList)))
  { name := some (sanitizeText (strField (pyOrJson
      (jsonGet data ((r"product_name").toList))
      (jsonGet data ((r"name").toList)))) none)
    category := some (sanitizeText (strField (jsonGet data ((r"category").toList))) none)
    color := some (sanitizeText (strField (jsonGet data ((r"color").toList))) none)
    size := some (sanitizeText (strField (jsonGet data ((r"size").toList))) none)
    description :=
      some (sanitizeText (strField (jsonGet data ((r"description").toList))) (some 500))
    price := if jsonTruthy priceField then strFieldLoose priceField else none
    otherFeatures :=
      if jsonTruthy (jsonGet data ((r"features").toList)) then
        jsonGet data ((r"features").toList)
      else
        match jsonGetRaw data ((r"other_features").toList) with
        | none => some (Json.obj [])
        | some Json.null => none
        | some v => some v }

/-- `_parse_vision_response` of vision_analyzer.py. -/
def parseVisionResponse (response : Str) : Option ProductInfo :=
  let data? := extractJsonFromText response
  if jsonTruthy data? then
    match data? with
    | some (Json.obj fields) => some (visionRecordOfData (Json.obj fields))
    | _ => none
  else some {}

/-- Character class `[₽рублейруб\.]` with IGNORECASE (the distinct letters
of the class, lower-cased). -/
def rubClassCh (c : Char) : Bool :=
  let l := toLowerCh c
  l == '₽' || l == 'р' || l == 'у' || l == 'б' || l == 'л' || l == 'е' ||
    l == 'й' || l == '.'

/-- Match `\d+[\s]*[₽рублейруб\.]+` at the start of `s` (pattern 1 of
`_extract_basic_info`); returns the whole match. -/
def basicPat1At (s : Str) : Option Str :=
  let ds := s.takeWhile isDigitCh
  if ds.isEmpty then none
  else
    let r1 := (s.drop ds.length)
    let ws := r1.takeWhile isPyWs
    let cls := (r1.drop ws.length).takeWhile rubClassCh
    if cls.isEmpty then none else some (ds ++ ws ++ cls)

/-- Match `цена[:\s-]*\d+[\s]*[₽рублейруб\.]*` at the start of `s`
(IGNORECASE; pattern 2 of `_extract_basic_info`). -/
def basicPat2At (s : Str) : Option Str :=
  if ciPrefix ((r"цена").toList) s then
    let r1 := s.drop 4
    let sep := r1.takeWhile (fun c => c == ':' || isPyWs c || c == '-')
    let r2 := r1.drop sep.length
    let ds := r2.takeWhile isDigitCh
    if ds.isEmpty then none
    else
      let r3 := r2.drop ds.length
      let ws := r3.takeWhile isPyWs
      let cls := (r3.drop ws.length).takeWhile rubClassCh
      some (s.take 4 ++ sep ++ ds ++ ws ++ cls)
  else none

/-- Match `[\$€£]\s*\d+[\.,]?\d*` at the start of `s` (pattern 3). -/
def basicPat3At (s : Str) : Option Str :=
  match s with
  | c :: cs =>
    if c == '$' || c == '€' || c == '£' then
      let ws := cs.takeWhile isPyWs
      let r1 := cs.drop ws.length
      let ds := r1.takeWhile isDigitCh
      if ds.isEmpty then none
      else
        let r2 := r1.drop ds.length
        let sepFrac : Str :=
          match r2 with
          | x :: rest =>
            if x == '.' || x == ',' then x :: rest.takeWhile isDigitCh else []
          | [] => []
        some (c :: ws ++ ds ++ sepFrac)
    else none
  | [] => none

/-- Match `\d+[\.,]?\d*\s*[\$€£]` at the start of `s` (pattern 4). -/
def basicPat4At (s : Str) : Option Str :=
  let ds := s.takeWhile isDigitCh
  if ds.isEmpty then none
  else
    let r1 := s.drop ds.length
    let sepFrac : Str :=
      match r1 with
      | x :: rest =>
        if x == '.' || x == ',' then x :: rest.takeWhile isDigitCh else []
      | [] => []
    let r2 := r1.drop sepFrac.length
    let ws := r2.takeWhile isPyWs
    match r2.drop ws.length with
    | c :: _ =>
      if c == '$' || c == '€' || c == '£' then some (ds ++ sepFrac ++ ws ++ [c])
      else none
    | [] => none

/-- Match `\d+\s*(?:руб|рублей|₽)` at ths start of `s` (IGNORECASE;
pattern 5; the alternation is tried in order, `руб` first). -/
def basicPat5At (s : Str) : Option Str :=
  let ds := s.takeWhile isDigitCh
  if ds.isEmpty then none
  else
    let r1 := s.drop ds.length
    let ws := r1.takeWhile isPyWs
    let r2 := r1.drop ws.length
    if ciPrefix ((r"руб").toList) r2 then some (ds ++ ws ++ r2.take 3)
    else if ciPrefix ((r"рублей").toList) r2 then some (ds ++ ws ++ r2.take 6)
    else match r2 with
      | '₽' :: _ => some (ds ++ ws ++ ['₽'])
      | _ => none

/-- Leftmost search for one of the `basicPat*At` matchers. -/
def searchBasic (patAt : Str → Option Str) : Str → Option Str
  | [] => none
  | c :: cs =>
    match patAt (c :: cs) with
    | some m => some m
    | none => searchBasic patAt cs

/-- First `\d+` run in the string (`re.findall(r"\d+", price_str)[0]`). -/
def firstDigitRun : Str → Option Str
  | [] => none
  | c :: cs =>
    if isDigitCh c then some ((c :: cs).takeWhile isDigitCh)
    else firstDigitRun cs

/-- `_extract_basic_info` of text_analyzer.py: the first line becomes the
name, the remaining lines (or the whole text when there is a single line)
the description; the five price patterns are tried in order and the first
match contributes its first digit run as `f"{numbers[0]}₽"`. -/
def extractBasicInfo (text : Str) : ProductInfo :=
  let lines := pySplitChar '\n' text
  let base : ProductInfo :=
    { name := some (lines.headD [])
      description := some (if 1 < lines.length then joinWith ['\n'] lines.tail else text) }
  let matched? :=
    match searchBasic basicPat1At text with
    | some m => some m
    | none =>
      match searchBasic basicPat2At text with
      | some m => some m
      | none =>
        match searchBasic basicPat3At text with
        | some m => some m
        | none =>
          match searchBasic basicPat4At text with
          | some m => some m
          | none => searchBasic basicPat5At text
  match matched? with
  | some m =>
    match firstDigitRun m with
    | some num => { base with price := some (num ++ ['₽']) }
    | none => base
  | none => base

/-- Outcome of the awaited AI call in `extract_product_info`: a response
string, or any raised exception (network failure and the like). -/
inductive AIOutcome where
  | ok (response : Str)
  | failure

/-- `TextAnalyzer.extract_product_info`: parse the AI response on success;
any exception inside the `try` (including the AI call itself and the
`AttributeError` from truthy non-dict data) falls back to
`_extract_basic_info(text)`. -/
def extractProductInfo (outcome : AIOutcome) (text : Str) : ProductInfo :=
  match outcome with
  | AIOutcome.ok response =>
    match parseAiResponse response with
    | some info => info
    | none => extractBasicInfo text
  | AIOutcome.failure => extractBasicInfo text

/-- C2 (amended): the descriptions built by both AI response parsers pass
through `sanitize_text` with the 500-character cap, so they never exceed
500 characters; heuristic-extractor descriptions and merge concatenations
are not subject to the cap. -/
theorem c2_parser_descriptions_capped :
    (∀ data : Json, ((aiRecordOfData data).description.getD []).length ≤ 500) ∧
    (∀ data : Json, ((visionRecordOfData data).description.getD []).length ≤ 500) := by
  constructor
  · intro data
    exact sanitizeText_length_le (strField (jsonGet data ((r"description").toList)))
  · intro data
    exact sanitizeText_length_le (strField (jsonGet data ((r"description").toList)))

/-- C1 (amended): heuristic prices end in the ruble marker; `format_price`
output, when non-empty, ends in `₽`, starts with `$` or `€`, or is the
stripped input unchanged (no number found); but `_parse_vision_response`
stores string and numeric price fields as they are, without any marker. -/
theorem c1_price_marker :
    (∀ t p, extractPriceFromText t = some p → ∃ q, p = q ++ [' ', '₽']) ∧
    (∀ v p, formatPrice v = p → p ≠ [] →
       p.getLast? = some '₽' ∨ p.head? = some '$' ∨ p.head? = some '€' ∨
         p = pyStrip (v.getD [])) ∧
    (∀ (fields : List (Str × Json)) (s : Str),
       jsonGet (Json.obj fields) ((r"price").toList) = some (Json.str s) → s ≠ [] →
       (visionRecordOfData (Json.obj fields)).price = some s) := by
  refine ⟨?_, ?_, ?_⟩
  · intro t p h
    unfold extractPriceFromText at h
    split at h
    · cases h
    · exact tryPats_ends t p _ h
  · intro v p h hne
    cases v with
    | none => exact absurd h.symm hne
    | some p0 =>
      simp only [formatPrice] at h
      by_cases h0 : p0.isEmpty
      · rw [if_pos h0] at h
        exact absurd h.symm hne
      · rw [if_neg h0] at h
        split at h
        · exact absurd h.symm hne
        · split at h
          · next numRaw heq =>
            split at h
            · refine Or.inl ?_
              rw [← h]
              exact List.getLast?_concat _
            · split at h
              · exact Or.inr (Or.inl (by rw [← h]; rfl))
              · split at h
                · exact Or.inr (Or.inr (Or.inl (by rw [← h]; rfl)))
                · refine Or.inl ?_
                  rw [← h]
                  exact List.getLast?_concat _
          · exact Or.inr (Or.inr (Or.inr h.symm))
  · intro fields s hget hne
    have htruthy : jsonTruthy (some (Json.str s)) = true := by
      cases s with
      | nil => exact absurd rfl hne
      | cons c cs => rfl
    simp only [visionRecordOfData, pyOrJson, hget, htruthy, if_true]
    rfl

/-- A vision response whose price field is a raw numeric string. -/
def c1Response : Str :=
  ("\x7b\"name\": \"Мяч\", \"price\": \"3400\"\x7d").toList

/-- C1 counterexample: the vision extractor stores the raw numeric string
`"3400"` as the final price, with no currency marker anywhere in it. -/
theorem c1_vision_price_unformatted :
    (parseVisionResponse c1Response).map ProductInfo.price
      = some (some ((r"3400").toList)) ∧
    ((r"3400").toList : Str).all
      (fun c => !(c == '₽') && !(c == '$') && !(c == '€')) = true := by
  exact ⟨rfl, rfl⟩

/-- Witness for C1 at concrete inputs for each hypothesis-carrying part. -/
theorem c1_price_marker_witness :
    (∃ q, ((r"3400 ₽").toList : Str) = q ++ [' ', '₽']) ∧
    (visionRecordOfData (Json.obj
        [(((r"price").toList : Str), Json.str ((r"3400").toList))])).price
      = some ((r"3400").toList) :=
  ⟨c1_price_marker.1 c5Input ((r"3400 ₽").toList) (by decide),
   c1_price_marker.2.2 [(((r"price").toList : Str), Json.str ((r"3400").toList))]
     ((r"3400").toList) (by rfl) (by decide)⟩

/-- C4 (amended): the extraction entry point always returns a record: an
unparsable-JSON response yields the empty all-null `ProductInfo()`, while a
raised AI exception yields the `_extract_basic_info` fallback, whose name
is the first line of the input text (not the all-null record). -/
theorem c4_failure_fallback :
    (∀ r t, extractJsonFromText r = none →
       extractProductInfo (AIOutcome.ok r) t = ({} : ProductInfo)) ∧
    (∀ t, extractProductInfo AIOutcome.failure t = extractBasicInfo t) ∧
    (∀ t, (extractBasicInfo t).name = some ((pySplitChar '\n' t).headD [])) := by
  refine ⟨?_, fun t => rfl, ?_⟩
  · intro r t h
    simp only [extractProductInfo, parseAiResponse, h]
    rfl
  · intro t
    simp only [extractBasicInfo]
    split
    · split <;> rfl
    · rfl

/-- The failure path's concrete input. -/
def c4Input : Str := (r"Кеды").toList

/-- C4 counterexample: when the AI call raises, the returned record is the
heuristic fallback with the text's first line as name (and the text itself
as description), not the all-null record. -/
theorem c4_error_not_all_null :
    (extractProductInfo AIOutcome.failure c4Input).name = some ((r"Кеды").toList) ∧
    (extractProductInfo AIOutcome.failure c4Input).description = some ((r"Кеды").toList) ∧
    ({} : ProductInfo).name = none := by
  exact ⟨by decide, by decide, rfl⟩

/-- Witness for C4 at concrete inputs. -/
theorem c4_failure_fallback_witness :
    extractProductInfo (AIOutcome.ok ((r"мусор").toList)) [] = ({} : ProductInfo) :=
  c4_failure_fallback.1 ((r"мусор").toList) [] (by rfl)

/-- Python `str.upper`, for the category label. -/
def pyUpper (s : Str) : Str :=
  s.map toUpperCh

/-- Font roles used by the templates. -/
inductive FontKind where
  | title
  | body
  | price

/-- Which drawing statement of `render` produced a text operation. -/
inductive TextRole where
  | category
  | titleLine
  | descLine
  | sizeLine
  | priceText

/-- One drawing operation of a template's `render`: a filled rectangle
(corners), a text draw at a position (its vertical extent modelled as the
font's point size), or an image paste (position and scaled size). -/
inductive DrawOp where
  | rect (x0 y0 x1 y1 : Int)
  | text (x y : Int) (content : Str) (font : FontKind) (role : TextRole)
  | paste (x y w h : Int)

/-- A decoded image's pixel dimensions. -/
structure PhotoImg where
  width : Nat
  height : Nat

/-- The situations `download_image_sync` can face: a base64 data URL whose
payload decodes to an image or fails, an HTTP response with a status code
and an optionally decodable body, or a network exception. -/
inductive DownloadOutcome where
  | dataUrl (decoded : Option PhotoImg)
  | httpResp (status : Nat) (decoded : Option PhotoImg)
  | netError

/-- `download_image_sync` of minimal.py: every failure path (bad data URL,
non-200 status, undecodable body, raised exception) returns `None`. -/
def downloadImageSync : DownloadOutcome → Option PhotoImg
  | DownloadOutcome.dataUrl d => d
  | DownloadOutcome.httpResp status d => if status = 200 then d else none
  | DownloadOutcome.netError => none

/-- The photo scaling and centring arithmetic shared by minimal.py and
dark.py (`target_width = 720`, `target_height = 350`, paste at `y = 20`);
the float ratio comparison and `int(...)` truncations are modelled exactly
on the integer dimensions. -/
def pasteOp (img : PhotoImg) : DrawOp :=
  let w := (img.width : Int)
  let h := (img.height : Int)
  if w * 350 > 720 * h then
    let nw : Int := 720
    let nh : Int := (720 * h) / w
    DrawOp.paste ((800 - nw) / 2) 20 nw nh
  else
    let nh : Int := 350
    let nw : Int := (350 * w) / h
    DrawOp.paste ((800 - nw) / 2) 20 nw nh

/-- The arguments of `render` (color and features are accepted but never
drawn by the minimal and dark templates). -/
structure CardInputs where
  productName : Str := []
  price : Str := []
  description : Str := []
  category : Str := []
  color : Option Str := none
  size : Option Str := none

/-- The line-drawing loop `for line in lines: draw.text((40, y_offset),
line, ...); y_offset += dy`, recorded as text operations. -/
def stackOps (x dy : Int) (f : FontKind) (role : TextRole) : Int → List Str → List DrawOp
  | _, [] => []
  | y, l :: ls => DrawOp.text x y l f role :: stackOps x dy f role (y + dy) ls

/-- The value of `y_offset` after such a loop. -/
def stackEnd (dy y : Int) (lines : List Str) : Int :=
  y + dy * lines.length

/-- The photo step shared by both templates: paste only when a URL is given
and `download_image_sync` decodes it. -/
def photoOps (photoUrl : Option DownloadOutcome) : List DrawOp :=
  match photoUrl with
  | some outcome =>
    match downloadImageSync outcome with
    | some img => [pasteOp img]
    | none => []
  | none => []

/-- `MinimalTemplate.render` as its sequence of drawing operations (800x800
canvas, photo region height 350, category at 390, title wrapped to 40 and
capped at two 42-pixel lines, description wrapped to 55 in 28-pixel steps
with no stopping condition, optional size line, then the price banner
rectangle over rows 720..800 with the price text at 738). -/
def renderMinimalOps (inp : CardInputs) (photoUrl : Option DownloadOutcome) : List DrawOp :=
  let y0 : Int := 350 + 40
  let y1 : Int := y0 + 35
  let titleLines := (wrapText inp.productName 40).take 2
  let y2 := stackEnd 42 y1 titleLines
  let y3 := y2 + 8
  let descLines := if inp.description.isEmpty then [] else wrapText inp.description 55
  let y4 := stackEnd 28 y3 descLines
  let sizeOps : List DrawOp :=
    match inp.size with
    | some sz =>
      if sz.isEmpty then []
      else [DrawOp.text 40 (y4 + 10) ((r"Размер: ").toList ++ sz) FontKind.body TextRole.sizeLine]
    | none => []
  let boxY : Int := 800 - 80
  photoOps photoUrl ++
    [DrawOp.text 40 y0 (pyUpper inp.category) FontKind.body TextRole.category] ++
    stackOps 40 42 FontKind.title TextRole.titleLine y1 titleLines ++
    stackOps 40 28 FontKind.body TextRole.descLine y3 descLines ++
    sizeOps ++
    [DrawOp.rect 0 boxY 800 800,
     DrawOp.text 40 (boxY + 18)
       (if inp.price.isEmpty then (r"Цена не указана").toList else inp.price)
       FontKind.price TextRole.priceText]

/-- `DarkTemplate.render` as its sequence of drawing operations: top accent
bar, the same photo/category/title/description/size layout as minimal, the
price text directly at row 720 with no banner rectangle, and a bottom
accent bar. -/
def renderDarkOps (inp : CardInputs) (photoUrl : Option DownloadOutcome) : List DrawOp :=
  let y0 : Int := 350 + 40
  let y1 : Int := y0 + 35
  let titleLines := (wrapText inp.productName 40).take 2
  let y2 := stackEnd 42 y1 titleLines
  let y3 := y2 + 8
  let descLines := if inp.description.isEmpty then [] else wrapText inp.description 55
  let y4 := stackEnd 28 y3 descLines
  let sizeOps : List DrawOp :=
    match inp.size with
    | some sz =>
      if sz.isEmpty then []
      else [DrawOp.text 40 (y4 + 10) ((r"Размер: ").toList ++ sz) FontKind.body TextRole.sizeLine]
    | none => []
  let priceY : Int := 800 - 80
  DrawOp.rect 0 0 800 5 ::
    photoOps photoUrl ++
    [DrawOp.text 40 y0 ('◆' :: ' ' :: pyUpper inp.category) FontKind.body TextRole.category] ++
    stackOps 40 42 FontKind.title TextRole.titleLine y1 titleLines ++
    stackOps 40 28 FontKind.body TextRole.descLine y3 descLines ++
    sizeOps ++
    [DrawOp.text 40 priceY
       (if inp.price.isEmpty then (r"Цена не указана").toList else inp.price)
       FontKind.price TextRole.priceText,
     DrawOp.rect 0 (800 - 5) 800 800]

/-- Pixel height of a font's drawn text, approximated by its point size. -/
def fontPx : FontKind → Int
  | FontKind.title => 36
  | FontKind.body => 18
  | FontKind.price => 42

/-- Topmost row an operation touches. -/
def opTop : DrawOp → Int
  | DrawOp.rect _ y0 _ _ => y0
  | DrawOp.text _ y _ _ _ => y
  | DrawOp.paste _ y _ _ => y

/-- One past the bottom row an operation touches. -/
def opBottom : DrawOp → Int
  | DrawOp.rect _ _ _ y1 => y1
  | DrawOp.text _ y _ f _ => y + fontPx f
  | DrawOp.paste _ y _ h => y + h

/-- Does the operation touch any row in `[lo, hi)`? -/
def intersectsRows (op : DrawOp) (lo hi : Int) : Bool :=
  opTop op < hi && lo < opBottom op

/-- Is this an image paste? -/
def isPaste : DrawOp → Bool
  | DrawOp.paste _ _ _ _ => true
  | _ => false

/-- An operation is photo-safe when it is not a paste and stays out of the
photo region's rows `[20, 370)`. -/
def renderOpSafeNoPhoto (op : DrawOp) : Bool :=
  !isPaste op && !intersectsRows op 20 370

theorem stackOps_mem (x dy : Int) (f : FontKind) (role : TextRole) :
    ∀ (lines : List Str) (y : Int) (op : DrawOp), op ∈ stackOps x dy f role y lines →
      0 ≤ dy → isPaste op = false ∧ y ≤ opTop op := by
  intro lines
  induction lines with
  | nil => intro y op h _; cases h
  | cons l ls ih =>
    intro y op h hdy
    rcases List.mem_cons.mp h with rfl | h
    · exact ⟨rfl, le_refl _⟩
    · obtain ⟨h1, h2⟩ := ih (y + dy) op h hdy
      refine ⟨h1, ?_⟩
      omega

theorem safe_of_top (op : DrawOp) (hp : isPaste op = false) (hy : (370 : Int) ≤ opTop op) :
    renderOpSafeNoPhoto op = true := by
  unfold renderOpSafeNoPhoto intersectsRows
  rw [hp]
  have h1 : decide (opTop op < 370) = false := decide_eq_false (by omega)
  rw [h1]
  rfl

/-- C9: when the photo URL is null or the photo cannot be downloaded or
decoded, `MinimalTemplate.render` still produces its operation list, pastes
no image, and draws nothing into the photo region's rows (20..370): the
region is left as the background color. -/
theorem c9_photo_failure_safe (inp : CardInputs) (po : Option DownloadOutcome)
    (hpo : ∀ o, po = some o → downloadImageSync o = none) :
    (renderMinimalOps inp po).all renderOpSafeNoPhoto = true := by
  have hphoto : photoOps po = [] := by
    cases po with
    | none => rfl
    | some o => simp [photoOps, hpo o rfl]
  rw [List.all_eq_true]
  intro op hop
  simp only [renderMinimalOps, hphoto, List.nil_append, List.append_assoc,
    List.mem_append, List.mem_cons, List.not_mem_nil, or_false] at hop
  have htitle : (0 : Int) ≤ 42 := by norm_num
  have hdesc : (0 : Int) ≤ 28 := by norm_num
  rcases hop with rfl | hop
  · exact safe_of_top _ rfl (by norm_num [opTop])
  rcases hop with hop | hop
  · obtain ⟨h1, h2⟩ := stackOps_mem 40 42 FontKind.title TextRole.titleLine _ _ op hop htitle
    exact safe_of_top _ h1 (by omega)
  rcases hop with hop | hop
  · obtain ⟨h1, h2⟩ := stackOps_mem 40 28 FontKind.body TextRole.descLine _ _ op hop hdesc
    refine safe_of_top _ h1 ?_
    simp only [stackEnd] at h2
    omega
  rcases hop with hop | hop
  · match hsz : inp.size with
    | none => rw [hsz] at hop; cases hop
    | some sz =>
      rw [hsz] at hop
      dsimp only at hop
      by_cases hszE : sz.isEmpty
      · rw [if_pos hszE] at hop; cases hop
      · rw [if_neg hszE] at hop
        rcases List.mem_singleton.mp hop with rfl
        refine safe_of_top _ rfl ?_
        simp only [opTop, stackEnd]
        omega
  rcases hop with rfl | rfl
  · exact safe_of_top _ rfl (by norm_num [opTop])
  · exact safe_of_top _ rfl (by norm_num [opTop])

/-- Witness for C9: a concrete record rendered with a null photo URL. -/
theorem c9_photo_failure_safe_witness :
    (renderMinimalOps { productName := (r"Кеды").toList, price := (r"3400 ₽").toList }
        none).all renderOpSafeNoPhoto = true :=
  c9_photo_failure_safe _ none (fun o h => by cases h)

/-- A long but legitimately extractable description: fifteen words of fifty
characters each. -/
def c6Desc : Str := joinWith [' '] (List.replicate 15 (List.replicate 50 'а'))

/-- The C6 failing record. -/
def c6Inputs : CardInputs :=
  { productName := (r"Товар").toList
    price := (r"100 ₽").toList
    description := c6Desc
    category := (r"Общая").toList }

/-- Does this operation draw a description line starting inside the price
banner's rows (top boundary 720)? -/
def descLineInBanner (op : DrawOp) : Bool :=
  match op with
  | DrawOp.text _ y _ _ TextRole.descLine => decide (720 ≤ y)
  | _ => false

/-- C6: both templates stack every wrapped description line with no
boundary check, so with a fifteen-line description both draw description
text starting at row 727, inside the price banner's region (rows 720..800);
minimal.py then paints the banner rectangle over it, dark.py leaves it
overlapping the price.  This contradicts the claim's stopping rule. -/
theorem c6_description_enters_banner :
    (renderMinimalOps c6Inputs none).any descLineInBanner = true ∧
    (renderDarkOps c6Inputs none).any descLineInBanner = true := by
  exact ⟨by decide, by decide⟩

theorem dropWhile_append_all (p : Char → Bool) (l₁ l₂ : Str) (h : ∀ c ∈ l₁, p c = true) :
    (l₁ ++ l₂).dropWhile p = l₂.dropWhile p := by
  induction l₁ with
  | nil => rfl
  | cons c rest ih =>
    simp only [List.cons_append, List.dropWhile_cons]
    rw [h c (List.mem_cons_self c rest)]
    exact ih (fun x hx => h x (List.mem_cons_of_mem c hx))

theorem dropWhile_nop (p : Char → Bool) (s : Str) (h : ∀ c, s.head? = some c → p c = false) :
    s.dropWhile p = s := by
  cases s with
  | nil => rfl
  | cons c cs =>
    simp only [List.dropWhile_cons]
    rw [h c rfl]
    simp

theorem trimBoth_nop (p : Char → Bool) (s : Str)
    (hh : ∀ c, s.head? = some c → p c = false)
    (hl : ∀ c, s.getLast? = some c → p c = false) :
    ((s.dropWhile p).reverse.dropWhile p).reverse = s := by
  rw [dropWhile_nop p s hh]
  rw [dropWhile_nop p s.reverse]
  · exact List.reverse_reverse s
  · intro c hc
    apply hl
    rwa [← List.head?_reverse]

theorem pyStrip_decomp (s : Str) :
    ∃ a b, s = a ++ pyStrip s ++ b ∧ (∀ c ∈ a, isPyWs c = true) ∧
      (∀ c ∈ b, isPyWs c = true) := by
  refine ⟨s.takeWhile isPyWs, ((s.dropWhile isPyWs).reverse.takeWhile isPyWs).reverse,
    ?_, ?_, ?_⟩
  · unfold pyStrip
    conv_lhs => rw [← List.takeWhile_append_dropWhile (p := isPyWs) (l := s)]
    rw [List.append_assoc]
    congr 1
    conv_lhs => rw [← List.reverse_reverse (s.dropWhile isPyWs)]
    conv_lhs =>
      rw [← List.takeWhile_append_dropWhile (p := isPyWs)
        (l := (s.dropWhile isPyWs).reverse)]
    rw [List.reverse_append]
  · intro c hc
    exact List.mem_takeWhile_imp hc
  · intro c hc
    rw [List.mem_reverse] at hc
    exact List.mem_takeWhile_imp hc

theorem findCharIdx_append_none (ch : Char) (l₁ l₂ : Str) (h : ∀ c ∈ l₁, ¬ c = ch) :
    findCharIdx ch (l₁ ++ l₂) = (findCharIdx ch l₂).map (· + l₁.length) := by
  induction l₁ with
  | nil => cases h2 : findCharIdx ch l₂ <;> simp [h2]
  | cons c rest ih =>
    simp only [List.cons_append, findCharIdx]
    rw [if_neg (by simpa using h c (List.mem_cons_self c rest))]
    rw [List.append_eq]
    rw [ih (fun x hx => h x (List.mem_cons_of_mem c hx))]
    cases findCharIdx ch l₂ with
    | none => rfl
    | some i => simp [Nat.add_assoc]

theorem findCharIdx_cons_self (ch : Char) (l : Str) :
    findCharIdx ch (ch :: l) = some 0 := by
  simp [findCharIdx]

theorem findFence_cons_step (c : Char) (l : Str) (hc : ¬ c = '`') (hl : 2 ≤ l.length) :
    findFence (c :: l) = (findFence l).map (fun p => (c :: p.1, p.2)) := by
  match l with
  | [] => simp at hl
  | [d] => simp at hl
  | d :: e :: r =>
    show findFence (c :: d :: e :: r) = _
    conv_lhs => unfold findFence
    rw [if_neg (by simp [hc])]

theorem findFence_append (x y : Str) (hx : ∀ c ∈ x, ¬ c = '`') :
    findFence (x ++ '`' :: '`' :: '`' :: y) = some (x, y) := by
  induction x with
  | nil => rfl
  | cons c rest ih =>
    rw [List.cons_append]
    rw [findFence_cons_step c (rest ++ '`' :: '`' :: '`' :: y)
      (hx c (List.mem_cons_self c rest)) (by simp; omega)]
    rw [ih (fun d hd => hx d (List.mem_cons_of_mem c hd))]
    rfl

theorem findFence_none (x : Str) (hx : ∀ c ∈ x, ¬ c = '`') :
    findFence x = none := by
  match x with
  | [] => rfl
  | [c] => rfl
  | [c, d] => rfl
  | c :: d :: e :: r =>
    rw [findFence_cons_step c (d :: e :: r) (hx c (List.mem_cons_self c _)) (by simp)]
    rw [findFence_none (d :: e :: r) (fun z hz => hx z (List.mem_cons_of_mem c hz))]
    rfl

theorem codeBlocksGo_nil (f : Nat) : codeBlocksGo f [] = [] := by
  cases f <;> rfl

theorem codeBlocksGo_noFence (f : Nat) (s : Str) (h : findFence s = none) :
    codeBlocksGo f s = [] := by
  cases f with
  | zero => rfl
  | succ f =>
    unfold codeBlocksGo
    rw [h]

theorem parseValue_backtick (f : Nat) (rest : Str) :
    parseValue f ('`' :: rest) = none := by
  cases f <;> rfl

theorem jsonTrim_nop (x : Str)
    (hh : ∀ c, x.head? = some c → isJsonWs c = false)
    (hl : ∀ c, x.getLast? = some c → isJsonWs c = false) : jsonTrim x = x :=
  trimBoth_nop isJsonWs x hh hl

theorem pyStrip_clean_ws (core w : Str) (hne : core ≠ [])
    (hw : ∀ c ∈ w, isPyWs c = true)
    (hh : ∀ c, core.head? = some c → isPyWs c = false)
    (hl : ∀ c, core.getLast? = some c → isPyWs c = false) :
    pyStrip (core ++ w) = core := by
  unfold pyStrip
  have h1 : (core ++ w).dropWhile isPyWs = core ++ w := by
    cases core with
    | nil => exact absurd rfl hne
    | cons a as =>
      apply dropWhile_nop
      intro c hc
      simp only [List.cons_append, List.head?_cons, Option.some.injEq] at hc
      subst hc
      exact hh a rfl
  rw [h1, List.reverse_append]
  rw [dropWhile_append_all isPyWs w.reverse core.reverse
    (by intro c hc; rw [List.mem_reverse] at hc; exact hw c hc)]
  rw [dropWhile_nop isPyWs core.reverse
    (by intro c hc; apply hl; rwa [List.head?_reverse] at hc)]
  exact List.reverse_reverse core

theorem loads_trim (s : Str) (J : Json) (h : loads s = some J)
    (hh : ∀ c, (jsonTrim s).head? = some c → isJsonWs c = false)
    (hl : ∀ c, (jsonTrim s).getLast? = some c → isJsonWs c = false) :
    loads (jsonTrim s) = some J := by
  have ht : jsonTrim (jsonTrim s) = jsonTrim s := jsonTrim_nop (jsonTrim s) hh hl
  unfold loads at h ⊢
  rw [ht]
  exact h

/-- An AI response wrapping the payload in a fenced ```json code block. -/
def fenceWrap (s : Str) : Str :=
  (r"```json").toList ++ '\n' :: s ++ '\n' :: (r"```").toList

theorem c7_fenced_block (s : Str) (J : Json)
    (hload : loads s = some J)
    (htick : ∀ c ∈ s, ¬ c = '`')
    (hstrip : pyStrip s = jsonTrim s)
    (hhead : (jsonTrim s).head? = some '{')
    (hlast : (jsonTrim s).getLast? = some '}') :
    extractJsonFromText (fenceWrap s) = some J := by
  obtain ⟨a, b, hsEq, ha, hb⟩ := pyStrip_decomp s
  rw [hstrip] at hsEq
  have hne : jsonTrim s ≠ [] := by
    intro h0
    rw [h0] at hhead
    cases hhead
  have hheadNW : ∀ c, (jsonTrim s).head? = some c → isPyWs c = false := by
    intro c hc
    rw [hhead] at hc
    cases hc
    decide
  have hlastNW : ∀ c, (jsonTrim s).getLast? = some c → isPyWs c = false := by
    intro c hc
    rw [hlast] at hc
    cases hc
    decide
  have hheadNJ : ∀ c, (jsonTrim s).head? = some c → isJsonWs c = false := by
    intro c hc
    rw [hhead] at hc
    cases hc
    decide
  have hlastNJ : ∀ c, (jsonTrim s).getLast? = some c → isJsonWs c = false := by
    intro c hc
    rw [hlast] at hc
    cases hc
    decide
  have hLoadsCore : loads (jsonTrim s) = some J := loads_trim s J hload hheadNJ hlastNJ
  have hRtrim : jsonTrim (fenceWrap s) = fenceWrap s := by
    apply jsonTrim_nop
    · intro c hc
      have h0 : (fenceWrap s).head? = some '`' := rfl
      rw [h0] at hc
      cases hc
      decide
    · intro c hc
      have h0 : (fenceWrap s).getLast? = some '`' := by
        unfold fenceWrap
        rw [← List.head?_reverse]
        simp [List.reverse_append]
      rw [h0] at hc
      cases hc
      decide
  have hloadR : loads (fenceWrap s) = none := by
    unfold loads
    rw [hRtrim]
    have hsplit : fenceWrap s =
        '`' :: ('`' :: '`' :: 'j' :: 's' :: 'o' :: 'n' :: '\n' ::
          (s ++ '\n' :: (r"```").toList)) := rfl
    rw [hsplit, parseValue_backtick]
  have hwsB : ∀ c ∈ b ++ ['\n'], isPyWs c = true := by
    intro c hc
    rcases List.mem_append.mp hc with h | h
    · exact hb c h
    · rcases List.mem_singleton.mp h with rfl
      decide
  have hcb : codeBlocks (fenceWrap s) = [jsonTrim s ++ (b ++ ['\n'])] := by
    unfold codeBlocks
    have hlen : (fenceWrap s).length = (s.length + 11) + 1 := by
      simp [fenceWrap]
    rw [hlen]
    unfold codeBlocksGo
    have hfence1 : findFence (fenceWrap s) =
        some ([], (r"json").toList ++ ('\n' :: (s ++ '\n' :: (r"```").toList))) := rfl
    rw [hfence1]
    dsimp only
    have hpre : ((r"json").toList).isPrefixOf
        ((r"json").toList ++ ('\n' :: (s ++ '\n' :: (r"```").toList))) = true := by
      rw [List.isPrefixOf_iff_prefix]
      exact List.prefix_append _ _
    rw [if_pos hpre]
    have hdropJson : ((r"json").toList ++ ('\n' :: (s ++ '\n' :: (r"```").toList))).drop 4
        = '\n' :: (s ++ '\n' :: (r"```").toList) := by
      have h4 : ((r"json").toList : Str).length = 4 := rfl
      rw [← h4]
      exact List.drop_left _ _
    rw [hdropJson]
    have hX : '\n' :: (s ++ '\n' :: (r"```").toList) =
        ('\n' :: a) ++ ((jsonTrim s ++ (b ++ ['\n'])) ++ '`' :: '`' :: '`' :: []) := by
      conv_lhs => rw [hsEq]
      simp [List.append_assoc]
    rw [hX]
    rw [dropWhile_append_all isPyWs ('\n' :: a) _ ?hwsNa]
    case hwsNa =>
      intro c hc
      rcases List.mem_cons.mp hc with rfl | h
      · decide
      · exact ha c h
    rw [dropWhile_nop isPyWs _ ?hnwHead]
    case hnwHead =>
      intro c hc
      apply hheadNW
      cases hjt : jsonTrim s with
      | nil => exact absurd hjt hne
      | cons z zs =>
        rw [hjt] at hc
        simp only [List.cons_append, List.head?_cons] at hc
        simpa using hc
    rw [findFence_append (jsonTrim s ++ (b ++ ['\n'])) [] ?hticks]
    case hticks =>
      intro c hc
      rcases List.mem_append.mp hc with h | h
      · apply htick
        rw [hsEq]
        exact List.mem_append.mpr (Or.inl (List.mem_append.mpr (Or.inr h)))
      · intro hEq
        subst hEq
        have := hwsB '`' h
        simp [isPyWs] at this
    dsimp only
    rw [codeBlocksGo_nil]
  have hstripX : pyStrip (jsonTrim s ++ (b ++ ['\n'])) = jsonTrim s :=
    pyStrip_clean_ws _ _ hne hwsB hheadNW hlastNW
  have hfp : firstParsedBlock [jsonTrim s ++ (b ++ ['\n'])] = some J := by
    unfold firstParsedBlock
    rw [hstripX, hLoadsCore]
  unfold extractJsonFromText
  rw [hloadR, hcb, hfp]

theorem c7_prose (p1 s p2 : Str) (J : Json)
    (hload : loads s = some J)
    (htick : ∀ c ∈ s, ¬ c = '`')
    (hstrip : pyStrip s = jsonTrim s)
    (hhead : (jsonTrim s).head? = some '{')
    (hlast : (jsonTrim s).getLast? = some '}')
    (hp1 : ∀ c ∈ p1, ¬ c = '`' ∧ ¬ c = '{' ∧ ¬ c = '}')
    (hp2 : ∀ c ∈ p2, ¬ c = '`' ∧ ¬ c = '{' ∧ ¬ c = '}')
    (hdirect : loads (p1 ++ s ++ p2) = none) :
    extractJsonFromText (p1 ++ s ++ p2) = some J := by
  obtain ⟨a, b, hsEq, ha, hb⟩ := pyStrip_decomp s
  rw [hstrip] at hsEq
  have hne : jsonTrim s ≠ [] := by
    intro h0
    rw [h0] at hhead
    cases hhead
  have hheadNJ : ∀ c, (jsonTrim s).head? = some c → isJsonWs c = false := by
    intro c hc
    rw [hhead] at hc
    cases hc
    decide
  have hlastNJ : ∀ c, (jsonTrim s).getLast? = some c → isJsonWs c = false := by
    intro c hc
    rw [hlast] at hc
    cases hc
    decide
  have hLoadsCore : loads (jsonTrim s) = some J := loads_trim s J hload hheadNJ hlastNJ
  have hcbEmpty : codeBlocks (p1 ++ s ++ p2) = [] := by
    unfold codeBlocks
    apply codeBlocksGo_noFence
    apply findFence_none
    intro c hc
    rcases List.mem_append.mp hc with h | h
    · rcases List.mem_append.mp h with h2 | h2
      · exact (hp1 c h2).1
      · exact htick c h2
    · exact (hp2 c h).1
  obtain ⟨t, ht⟩ : ∃ t, jsonTrim s = '{' :: t := by
    cases hjt : jsonTrim s with
    | nil => exact absurd hjt hne
    | cons z zs =>
      rw [hjt, List.head?_cons] at hhead
      cases hhead
      exact ⟨zs, rfl⟩
  obtain ⟨u, hu⟩ : ∃ u, (jsonTrim s).reverse = '}' :: u := by
    have hrh : (jsonTrim s).reverse.head? = some '}' := by
      rw [List.head?_reverse]
      exact hlast
    cases hr : (jsonTrim s).reverse with
    | nil =>
      rw [hr] at hrh
      cases hrh
    | cons w u =>
      rw [hr, List.head?_cons] at hrh
      cases hrh
      exact ⟨u, rfl⟩
  have haNoBrace : ∀ c ∈ a, ¬ c = '{' := by
    intro c hc hEq
    subst hEq
    exact absurd (ha _ hc) (by decide)
  have hbNoBrace : ∀ c ∈ b, ¬ c = '}' := by
    intro c hc hEq
    subst hEq
    exact absurd (hb _ hc) (by decide)
  have hTot : p1 ++ s ++ p2 = (p1 ++ a) ++ (jsonTrim s ++ (b ++ p2)) := by
    conv_lhs => rw [hsEq]
    simp [List.append_assoc]
  have hfind : findCharIdx '{' (p1 ++ s ++ p2) = some (p1.length + a.length) := by
    rw [hTot]
    rw [findCharIdx_append_none '{' (p1 ++ a) _ ?noBr]
    case noBr =>
      intro c hc
      rcases List.mem_append.mp hc with h | h
      · exact (hp1 c h).2.1
      · exact haNoBrace c h
    rw [ht, List.cons_append, findCharIdx_cons_self]
    simp
  have hrev : (p1 ++ s ++ p2).reverse =
      (p2.reverse ++ b.reverse) ++ ('}' :: (u ++ (a.reverse ++ p1.reverse))) := by
    rw [hTot]
    simp [List.reverse_append, hu, List.append_assoc]
  have hfr : findCharIdx '}' ((p1 ++ s ++ p2).reverse) = some (p2.length + b.length) := by
    rw [hrev]
    rw [findCharIdx_append_none '}' (p2.reverse ++ b.reverse) _ ?noBr2]
    case noBr2 =>
      intro c hc
      rcases List.mem_append.mp hc with h | h
      · exact (hp2 c (List.mem_reverse.mp h)).2.2
      · exact hbNoBrace c (List.mem_reverse.mp h)
    rw [findCharIdx_cons_self]
    simp
  have hrfindVal : rfindCharIdx '}' (p1 ++ s ++ p2) =
      some ((p1 ++ s ++ p2).length - 1 - (p2.length + b.length)) := by
    unfold rfindCharIdx
    rw [hfr]
  have hlenTot : (p1 ++ s ++ p2).length =
      p1.length + a.length + (jsonTrim s).length + b.length + p2.length := by
    rw [hTot]
    simp only [List.length_append]
    omega
  have hTlen : 1 ≤ (jsonTrim s).length := by
    rw [ht]
    simp
  have harith : (p1 ++ s ++ p2).length - 1 - (p2.length + b.length) + 1 -
      (p1.length + a.length) = (jsonTrim s).length := by
    rw [hlenTot]
    omega
  have hPA : p1.length + a.length = (p1 ++ a).length := by
    simp
  have hbrace : bracesFallback (p1 ++ s ++ p2) = some J := by
    unfold bracesFallback
    rw [hfind, hrfindVal]
    dsimp only
    rw [if_pos ?hlt]
    case hlt =>
      rw [hlenTot]
      omega
    have hdropTake : (((p1 ++ s ++ p2).drop (p1.length + a.length)).take
        ((p1 ++ s ++ p2).length - 1 - (p2.length + b.length) + 1 -
          (p1.length + a.length))) = jsonTrim s := by
      rw [harith]
      rw [hTot, hPA, List.drop_left]
      exact List.take_left _ _
    rw [hdropTake]
    exact hLoadsCore
  unfold extractJsonFromText
  rw [hdirect]
  dsimp only
  rw [hcbEmpty]
  dsimp only [firstParsedBlock]
  exact hbrace

/-- Concrete JSON payload `{"a": 1}` used to witness C7. -/
def c7s0 : Str := ("\x7b\"a\": 1\x7d").toList

/-- The object that `json.loads` yields for `c7s0`. -/
def c7J0 : Json := Json.obj [((r"a").toList, Json.num (r"1").toList)]

/-- Benign leading prose: no braces, no backticks, not JSON. -/
def c7p1 : Str := ("ответ: ").toList

/-- Benign trailing prose: no braces, no backticks. -/
def c7p2 : Str := (" конец").toList

/-- A response whose FIRST fenced code block holds non-JSON (`x`), whose
second block holds the object, and whose brace-substring fallback fails
because a stray closing brace after the blocks leaves trailing data in the
first-to-last-brace span. -/
def c7Resp : Str :=
  (r"```x``` ```").toList ++ ("\x7b\"a\": 1\x7d").toList ++ ("``` \x7d").toList

/-- C7: for a backtick-free JSON payload whose stripped form is
brace-delimited, `extract_json_from_text` returns the same parsed object
whether the payload is the whole response, is wrapped in a fenced json code
block, or is embedded in surrounding prose that is free of braces, backticks
and fences and does not itself parse as JSON.  (The claim's strategy order is
amended separately: the code tries EVERY fenced code block in order, not only
the first — see the counterexample.) -/
theorem c7_equivalent_extraction (p1 s p2 : Str) (J : Json)
    (hload : loads s = some J)
    (htick : ∀ c ∈ s, ¬ c = '`')
    (hstrip : pyStrip s = jsonTrim s)
    (hhead : (jsonTrim s).head? = some '{')
    (hlast : (jsonTrim s).getLast? = some '}')
    (hp1 : ∀ c ∈ p1, ¬ c = '`' ∧ ¬ c = '{' ∧ ¬ c = '}')
    (hp2 : ∀ c ∈ p2, ¬ c = '`' ∧ ¬ c = '{' ∧ ¬ c = '}')
    (hdirect : loads (p1 ++ s ++ p2) = none) :
    extractJsonFromText s = some J ∧
    extractJsonFromText (fenceWrap s) = some J ∧
    extractJsonFromText (p1 ++ s ++ p2) = some J := by
  refine ⟨?_, ?_, ?_⟩
  · unfold extractJsonFromText
    rw [hload]
  · exact c7_fenced_block s J hload htick hstrip hhead hlast
  · exact c7_prose p1 s p2 J hload htick hstrip hhead hlast hp1 hp2 hdirect

/-- C7 counterexample to the claimed strategy order: on `c7Resp` the first
fenced code block does not parse, the brace substring does not parse, yet
`extract_json_from_text` succeeds through the SECOND fenced block, so the
claimed "first fenced code block" strategy list returns a different result
from the code. -/
theorem c7_spec_order_diverges :
    extractJsonFromText c7Resp = some c7J0 ∧
    extractJsonSpecOrder c7Resp = none := ⟨rfl, rfl⟩

/-- C7 witness: the payload, its fenced wrapping and its prose embedding all
extract to the same object on concrete inputs. -/
theorem c7_equivalent_extraction_witness :
    extractJsonFromText c7s0 = some c7J0 ∧
    extractJsonFromText (fenceWrap c7s0) = some c7J0 ∧
    extractJsonFromText (c7p1 ++ c7s0 ++ c7p2) = some c7J0 :=
  c7_equivalent_extraction c7p1 c7s0 c7p2 c7J0 rfl (by decide) rfl rfl rfl
    (by decide) (by decide) rfl
